import Mathlib

/-!
Verification of the uvrepin repinning tool (src/uvrepin/main.py) against its
natural-language specification.  Python functions are shallowly embedded as
Lean functions over `List Char` / `String`; external effects (the `uv`
subprocess runner, the filesystem, the PyPI query) are passed in as explicit
function parameters.  Python strings are modelled as Lean strings (sequences
of unicode scalar values, matching Python code points); the ASCII fragment of
Python's `\s`, `\w`, `str.lower` and friends is modelled, which covers every
string the tool manipulates.
-/

deriving instance DecidableEq for Except

namespace Uvrepin

/-! ### Small Python-semantics helpers -/

/-- ASCII whitespace, as matched by Python's regex `\s` on ASCII text. -/
def pyIsSpace (c : Char) : Bool :=
  c = ' ' || c = '\t' || c = '\n' || c = '\r' || c = '\x0b' || c = '\x0c'

/-- Drop trailing characters satisfying `pyIsSpace`. -/
def dropTrailingWs (l : List Char) : List Char :=
  (l.reverse.dropWhile pyIsSpace).reverse

/-- Python `str.strip()` on character lists (ASCII whitespace model). -/
def pyStripChars (l : List Char) : List Char :=
  dropTrailingWs (l.dropWhile pyIsSpace)

/-- Python `str.strip()`. -/
def pyStrip (s : String) : String :=
  String.mk (pyStripChars s.data)

/-- Does `pat` occur as a contiguous run at the head of `l`?  (Bool-valued.) -/
def startsWithChars : List Char → List Char → Bool
  | [], _ => true
  | _ :: _, [] => false
  | c :: cs, d :: ds => c = d && startsWithChars cs ds

/-- Consume the literal `lit` from the head of `l`, returning the remainder. -/
def stripLit : List Char → List Char → Option (List Char)
  | [], l => some l
  | _ :: _, [] => none
  | c :: cs, d :: ds => if c = d then stripLit cs ds else none

/-- Does `pat` occur anywhere inside `l`?  Models Python's `pat in s`. -/
def hasInfixChars : List Char → List Char → Bool
  | pat, [] => pat.isEmpty
  | pat, c :: rest => startsWithChars pat (c :: rest) || hasInfixChars pat rest

/-- Python `pat in s` for strings. -/
def pyContains (s pat : String) : Bool :=
  hasInfixChars pat.data s.data

/-- Python string `<`: lexicographic comparison by code point, a proper
prefix being smaller. -/
def pyStrLtChars : List Char → List Char → Bool
  | [], [] => false
  | [], _ :: _ => true
  | _ :: _, [] => false
  | a :: as, b :: bs => if a < b then true else if b < a then false else pyStrLtChars as bs

/-- Python `a < b` on strings. -/
def pyStrLt (a b : String) : Bool := pyStrLtChars a.data b.data

/-- Python `a <= b` on strings. -/
def pyStrLe (a b : String) : Bool := !pyStrLt b a

/-- Python `max` over a list of strings: lexicographically (code-point) largest
element, `none` on the empty list (where Python raises `ValueError`). -/
def pyMaxList : List String → Option String
  | [] => none
  | v :: vs => some (vs.foldl (fun acc x => if pyStrLt acc x then x else acc) v)

/-- Python dict assignment `d[k] = v` on an insertion-ordered association
list: overwrites in place if the key exists, else appends. -/
def pyDictSet {α β : Type} [DecidableEq α] : List (α × β) → α → β → List (α × β)
  | [], k, v => [(k, v)]
  | (k0, v0) :: rest, k, v =>
    if k0 = k then (k, v) :: rest else (k0, v0) :: pyDictSet rest k v

/-- Python `d.setdefault(k, []).append(v)` on an insertion-ordered assoc
list of lists. -/
def pyDictAppend {α : Type} [DecidableEq α] :
    List (α × List String) → α → String → List (α × List String)
  | [], k, v => [(k, [v])]
  | (k0, vs) :: rest, k, v =>
    if k0 = k then (k0, vs ++ [v]) :: rest else (k0, vs) :: pyDictAppend rest k v

/-! ### Name normalization (`pep503`, main.py lines 46-47)

`re.sub(r"[-_.]+", "-", name).lower()`: every maximal run of characters from
`-_.` is replaced by a single `-`, then the result is lowercased (ASCII). -/

/-- Characters collapsed by `pep503`'s separator class `[-_.]`. -/
def isSep (c : Char) : Bool := c = '-' || c = '_' || c = '.'

/-- Replace each maximal run of separator characters by a single `-`.
The flag records whether the previous character was part of a separator run
still being consumed. -/
def collapseSeps : Bool → List Char → List Char
  | _, [] => []
  | inRun, c :: rest =>
    if isSep c then
      if inRun then collapseSeps true rest
      else '-' :: collapseSeps true rest
    else c :: collapseSeps false rest

/-- PEP 503 name normalization (main.py `pep503`): collapse separator runs,
then lowercase.  `Char.toLower` lowers exactly the basic latin letters, which
is Python `str.lower` restricted to ASCII. -/
def pep503 (name : String) : String :=
  String.mk ((collapseSeps false name.data).map Char.toLower)

/-! ### Requirement parser (`parse_req`, main.py lines 50-70)

The regex
`^\s*(?P<name>[A-Za-z0-9][A-Za-z0-9_.-]*)(?P<extras>\[[^\]]+\])?\s*(?P<op>(==|!=|<=|>=|~=|===|<|>))?\s*(?P<ver>[^;\s]+)?\s*$`
is deterministic: every quantified character class is followed by a literal
whose first character the class excludes (or by end of input), so greedy
maximal munch is the unique viable parse.  It is embedded below as a
maximal-munch parser. -/

/-- The regex class `[A-Za-z0-9]`. -/
def isAlnumA (c : Char) : Bool :=
  ('A' ≤ c && c ≤ 'Z') || ('a' ≤ c && c ≤ 'z') || ('0' ≤ c && c ≤ '9')

/-- The regex class `[A-Za-z0-9_.-]` (tail characters of a requirement name). -/
def isNameChar (c : Char) : Bool := isAlnumA c || c = '_' || c = '.' || c = '-'

/-- The operator alternation `==|!=|<=|>=|~=|===|<|>` in source order (Python
regex alternation takes the first alternative that matches). -/
def opList : List (List Char) :=
  [['=', '='], ['!', '='], ['<', '='], ['>', '='], ['~', '='],
   ['=', '=', '='], ['<'], ['>']]

/-- Try each operator alternative in order against the head of `l`. -/
def opMatch : List (List Char) → List Char → Option (List Char × List Char)
  | [], _ => none
  | op :: ops, l =>
    match stripLit op l with
    | some rest => some (op, rest)
    | none => opMatch ops l

/-- Optional extras group `(\[[^\]]+\])?`; returns the captured group (with
its brackets, as Python's group does) and the remainder, or leaves the input
untouched when the group cannot match. -/
def matchExtras (l : List Char) : Option (List Char) × List Char :=
  match l with
  | '[' :: rest =>
    let content := rest.takeWhile (fun c => c ≠ ']')
    match rest.dropWhile (fun c => c ≠ ']') with
    | ']' :: rest3 =>
      if content.isEmpty then (none, l)
      else (some ('[' :: (content ++ [']'])), rest3)
    | _ => (none, l)
  | _ => (none, l)

/-- Captured groups of the `parse_req` regex. -/
structure ReqMatch where
  name : List Char
  extras : Option (List Char)
  op : Option (List Char)
  ver : Option (List Char)
  deriving Repr, DecidableEq

/-- Character allowed inside the `ver` group `[^;\s]+`. -/
def isVerChar (c : Char) : Bool := !(c = ';' || pyIsSpace c)

/-- The anchored regex match of `parse_req` (applied to `left.strip()`). -/
def reqMatch (l0 : List Char) : Option ReqMatch :=
  let l := l0.dropWhile pyIsSpace
  match l with
  | [] => none
  | c :: rest =>
    if isAlnumA c then
      let nameTail := rest.takeWhile isNameChar
      let l1 := rest.dropWhile isNameChar
      let (extras, l2) := matchExtras l1
      let l3 := l2.dropWhile pyIsSpace
      let (op, l4) :=
        match opMatch opList l3 with
        | some (o, r) => (some o, r)
        | none => (none, l3)
      let l5 := l4.dropWhile pyIsSpace
      let verTok := l5.takeWhile isVerChar
      let (ver, l6) :=
        if verTok.isEmpty then (none, l5) else (some verTok, l5.dropWhile isVerChar)
      if (l6.dropWhile pyIsSpace).isEmpty then
        some ⟨c :: nameTail, extras, op, ver⟩
      else none
    else none

/-- The nonempty-input arm of `reqMatch`, on a first character `c` already
known to survive the leading `\s*`: the rest of the anchored match. -/
def reqMatchCore (c : Char) (rest : List Char) : Option ReqMatch :=
  if isAlnumA c then
    let nameTail := rest.takeWhile isNameChar
    let l1 := rest.dropWhile isNameChar
    let (extras, l2) := matchExtras l1
    let l3 := l2.dropWhile pyIsSpace
    let (op, l4) :=
      match opMatch opList l3 with
      | some (o, r) => (some o, r)
      | none => (none, l3)
    let l5 := l4.dropWhile pyIsSpace
    let verTok := l5.takeWhile isVerChar
    let (ver, l6) :=
      if verTok.isEmpty then (none, l5) else (some verTok, l5.dropWhile isVerChar)
    if (l6.dropWhile pyIsSpace).isEmpty then
      some ⟨c :: nameTail, extras, op, ver⟩
    else none
  else none

/-- Python `s.split(";", 1)` when `";" in s`: the part before the first `;`
and the part after it. -/
def splitSemi : List Char → Option (List Char × List Char)
  | [] => none
  | c :: rest =>
    if c = ';' then some ([], rest)
    else
      match splitSemi rest with
      | some (l, r) => some (c :: l, r)
      | none => none

/-- The VCS/URL/path test of `parse_req`:
`"@" in s or s.startswith(("file:", "path:", "git+", "hg+", "svn+"))`. -/
def reqSkip (s : List Char) : Bool :=
  s.any (fun c => c = '@') ||
    startsWithChars ['f', 'i', 'l', 'e', ':'] s ||
    startsWithChars ['p', 'a', 't', 'h', ':'] s ||
    startsWithChars ['g', 'i', 't', '+'] s ||
    startsWithChars ['h', 'g', '+'] s ||
    startsWithChars ['s', 'v', 'n', '+'] s

/-- Result tuple of `parse_req`: `(name, extras, pinned_version?, marker?)`.
The Python SKIP sentinel is the tuple `("SKIP", "", None, None)`. -/
def skipSentinel : String × String × Option String × Option String :=
  ("SKIP", "", none, none)

/-- main.py `parse_req`. -/
def parse_req (req : String) : Option (String × String × Option String × Option String) :=
  let s := pyStripChars req.data
  if s.isEmpty then none
  else if startsWithChars ['#'] s then none
  else if reqSkip s then some skipSentinel
  else
    let (left, markerRaw) :=
      match splitSemi s with
      | some (l, r) => (l, some r)
      | none => (s, none)
    let marker := markerRaw.map (fun m => String.mk (pyStripChars m))
    match reqMatch (pyStripChars left) with
    | none => none
    | some m =>
      let ver := if m.op = some ['=', '='] then m.ver else none
      some (String.mk m.name, String.mk (m.extras.getD []), ver.map String.mk, marker)

/-! ### Manifest data and `gather_direct` (main.py lines 76-117)

A pyproject document is modelled by the three sections the tool reads.  The
values of `project.optional-dependencies` and `dependency-groups` may be
non-lists in TOML (the code guards with `isinstance(arr, list)`), modelled by
`PyVal`. -/

/-- A TOML value as far as the tool observes it: a list of requirement
strings or something else. -/
inductive PyVal where
  | list (xs : List String)
  | other
  deriving Repr, DecidableEq

/-- The sections of a pyproject document that `gather_direct`,
`find_package_location_in_member` and friends read. -/
structure TomlData where
  dependencies : List String
  optional_dependencies : List (String × PyVal)
  dependency_groups : List (String × PyVal)
  deriving Repr, DecidableEq

/-- One dependency record (`dict(raw=…, name=…, extras=…, pinned=…, marker=…)`). -/
structure Dep where
  raw : String
  name : String
  extras : String
  pinned : Option String
  marker : Option String
  deriving Repr, DecidableEq

/-- The record-building loop body shared by all three groups in
`gather_direct`: parse each entry, keep all non-`None`, non-SKIP results. -/
def parseGroupList (arr : List String) : List Dep :=
  arr.filterMap (fun r =>
    match parse_req r with
    | none => none
    | some (n, e, p, m) => if n = "SKIP" then none else some ⟨r, n, e, p, m⟩)

/-- The loop body shared by both group loops of `gather_direct`: skip
non-list values and empty parsed groups, otherwise store the parsed group
under its name and record the group style flag (`true` for
`optional-dependencies`, `false` for `dependency-groups`). -/
def gatherStep (b : Bool)
    (acc : List (Option String × List Dep) × List (String × Bool))
    (entry : String × PyVal) :
    List (Option String × List Dep) × List (String × Bool) :=
  match entry.2 with
  | PyVal.other => acc
  | PyVal.list arr =>
    let group := parseGroupList arr
    if group.isEmpty then acc
    else (pyDictSet acc.1 (some entry.1) group, pyDictSet acc.2 entry.1 b)

/-- main.py `gather_direct`: returns `(groups_dict, is_optional_dict)`.  The
key `none` is Python's `None` key for `[project.dependencies]`. -/
def gather_direct (data : TomlData) :
    List (Option String × List Dep) × List (String × Bool) :=
  let out : List (Option String × List Dep) := []
  let out :=
    if data.dependencies.isEmpty then out
    else pyDictSet out none (parseGroupList data.dependencies)
  let mid := data.optional_dependencies.foldl (gatherStep true) (out, [])
  data.dependency_groups.foldl (gatherStep false) mid

/-! ### Conflict parser (`parse_workspace_conflict`, main.py lines 135-184)

The two diagnostic regexes are embedded as explicit matchers.  Every
quantified group except pattern 2's `([^\s,]+).*?` junction is followed by a
literal whose first character the group's class excludes, so greedy matching
is forced and maximal munch is the unique viable parse; the one genuinely
nondeterministic junction (greedy `ver2` against lazy `.*?`) is implemented
by the same backtracking order Python uses: longest `ver2` first, shortest
gap first. -/

/-- Package conflict across workspace members (main.py `WorkspaceConflict`).
`conflicts` is the insertion-ordered member→version dict. -/
structure WorkspaceConflict where
  package_name : String
  extra_name : String
  conflicts : List (String × String)
  deriving Repr, DecidableEq

/-- Replace each maximal run of whitespace by one space:
`re.sub(r'\s+', ' ', stderr)`. -/
def collapseWs : Bool → List Char → List Char
  | _, [] => []
  | inRun, c :: rest =>
    if pyIsSpace c then
      if inRun then collapseWs true rest
      else ' ' :: collapseWs true rest
    else c :: collapseWs false rest

/-- The regex class `[a-zA-Z0-9_-]` (workspace member names). -/
def isMemberChar (c : Char) : Bool := isAlnumA c || c = '_' || c = '-'

/-- The regex class `\w` on ASCII. -/
def isWordChar (c : Char) : Bool := isAlnumA c || c = '_'

/-- Greedy nonempty character-class group `[…]+`: maximal munch. -/
def grabClass (p : Char → Bool) (l : List Char) : Option (List Char × List Char) :=
  let t := l.takeWhile p
  if t.isEmpty then none else some (t, l.dropWhile p)

/-- Captured groups of `conflict_pattern1`. -/
structure Match1 where
  member1 : List Char
  extra1 : List Char
  pkg1 : List Char
  ver1 : List Char
  member2 : List Char
  extra2 : List Char
  pkg2 : List Char
  ver2 : List Char
  deriving Repr, DecidableEq

/-- Captured groups of `conflict_pattern2`, in source order. -/
structure Match2 where
  member1 : List Char
  pkg1 : List Char
  ver1 : List Char
  member2 : List Char
  extra2 : List Char
  pkg2 : List Char
  ver2 : List Char
  member1_extra : List Char
  extra1 : List Char
  member2_extra : List Char
  extra2_full : List Char
  deriving Repr, DecidableEq

/-- Four captured groups of one `<member>[<extra>] depends on <pkg>==<ver>`
clause. -/
structure DepClause where
  member : List Char
  extra : List Char
  pkg : List Char
  ver : List Char
  deriving Repr, DecidableEq

/-- Match `([^[]+)\[([^\]]+)\] depends on ([^=]+)==(ver…)` where the version
class is `verP` (`[^\s]+` for the first clause of pattern 1, `[^\s,]+` for
its second clause). -/
def depClauseBr (verP : Char → Bool) (l : List Char) :
    Option (DepClause × List Char) :=
  match grabClass (fun c => c ≠ '[') l with
  | none => none
  | some (member, l) =>
    match stripLit "[".data l with
    | none => none
    | some l =>
      match grabClass (fun c => c ≠ ']') l with
      | none => none
      | some (extra, l) =>
        match stripLit "] depends on ".data l with
        | none => none
        | some l =>
          match grabClass (fun c => c ≠ '=') l with
          | none => none
          | some (pkg, l) =>
            match stripLit "==".data l with
            | none => none
            | some l =>
              match grabClass verP l with
              | none => none
              | some (ver, l) => some (⟨member, extra, pkg, ver⟩, l)

/-- Attempt `conflict_pattern1` at the head of `l`; on success return the
captures and the remainder after the match. -/
def matchPattern1At (l : List Char) : Option (Match1 × List Char) :=
  match stripLit "Because ".data l with
  | none => none
  | some l =>
    match depClauseBr (fun c => !pyIsSpace c) l with
    | none => none
    | some (c1, l) =>
      match stripLit " and ".data l with
      | none => none
      | some l =>
        match depClauseBr (fun c => !(pyIsSpace c || c = ',')) l with
        | none => none
        | some (c2, l) =>
          some (⟨c1.member, c1.extra, c1.pkg, c1.ver,
                 c2.member, c2.extra, c2.pkg, c2.ver⟩, l)

/-- One `<member>[<word>]` piece of the trailing incompatibility clause:
`([a-zA-Z0-9_-]+)\[(\w+)\]` followed by the literal `after`. -/
def memberBracket (after : List Char) (l : List Char) :
    Option ((List Char × List Char) × List Char) :=
  match grabClass isMemberChar l with
  | none => none
  | some (m, l) =>
    match stripLit "[".data l with
    | none => none
    | some l =>
      match grabClass isWordChar l with
      | none => none
      | some (x, l) =>
        match stripLit (']' :: after) l with
        | none => none
        | some l => some ((m, x), l)

/-- The deterministic trailing clause of `conflict_pattern2`:
`([a-zA-Z0-9_-]+)\[(\w+)\] and ([a-zA-Z0-9_-]+)\[(\w+)\] are incompatible`. -/
def tail2Match (l : List Char) :
    Option ((List Char × List Char × List Char × List Char) × List Char) :=
  match memberBracket " and ".data l with
  | none => none
  | some ((m1e, x1), l) =>
    match memberBracket " are incompatible".data l with
    | none => none
    | some ((m2e, x2), l) => some ((m1e, x1, m2e, x2), l)

/-- The leading `([a-zA-Z0-9_-]+) depends on ([^=]+)==([^\s,]+)` clause of
`conflict_pattern2`: a member without an extra. -/
def depClauseNoBr (l : List Char) :
    Option ((List Char × List Char × List Char) × List Char) :=
  match grabClass isMemberChar l with
  | none => none
  | some (member, l) =>
    match stripLit " depends on ".data l with
    | none => none
    | some l =>
      match grabClass (fun c => c ≠ '=') l with
      | none => none
      | some (pkg, l) =>
        match stripLit "==".data l with
        | none => none
        | some l =>
          match grabClass (fun c => !(pyIsSpace c || c = ',')) l with
          | none => none
          | some (ver, l) => some ((member, pkg, ver), l)

/-- The middle `([a-zA-Z0-9_-]+)\[([^\]]+)\] depends on ([^=]+)==` clause of
`conflict_pattern2`, up to but excluding its version group. -/
def depClauseWithExtra (l : List Char) :
    Option ((List Char × List Char × List Char) × List Char) :=
  match grabClass isMemberChar l with
  | none => none
  | some (member, l) =>
    match stripLit "[".data l with
    | none => none
    | some l =>
      match grabClass (fun c => c ≠ ']') l with
      | none => none
      | some (extra, l) =>
        match stripLit "] depends on ".data l with
        | none => none
        | some l =>
          match grabClass (fun c => c ≠ '=') l with
          | none => none
          | some (pkg, l) =>
            match stripLit "==".data l with
            | none => none
            | some l => some ((member, extra, pkg), l)

/-- The `([^\s,]+).*?` junction of `conflict_pattern2` followed by its
trailing clause, in Python's backtracking order: the greedy version group
tries its longest extent first, and for each extent the lazy gap grows from
zero; `.` does not match a newline. -/
def searchVer2Tail (l : List Char) :
    Option ((List Char ×
      (List Char × List Char × List Char × List Char)) × List Char) :=
  let run7 := l.takeWhile (fun c => !(pyIsSpace c || c = ','))
  if run7.isEmpty then none
  else
    (List.range run7.length).findSome? (fun i =>
      let g7len := run7.length - i
      let ver2 := run7.take g7len
      let rest0 := l.drop g7len
      (List.range (rest0.length + 1)).findSome? (fun k =>
        if (rest0.take k).all (fun c => c ≠ '\n') then
          match tail2Match (rest0.drop k) with
          | some (t, lrest) => some ((ver2, t), lrest)
          | none => none
        else none))

/-- Attempt `conflict_pattern2` at the head of `l`. -/
def matchPattern2At (l : List Char) : Option (Match2 × List Char) :=
  match stripLit "Because ".data l with
  | none => none
  | some l =>
    match depClauseNoBr l with
    | none => none
    | some ((member1, pkg1, ver1), l) =>
      match stripLit " and ".data l with
      | none => none
      | some l =>
        match depClauseWithExtra l with
        | none => none
        | some ((member2, extra2, pkg2), l) =>
          match searchVer2Tail l with
          | none => none
          | some ((ver2, (m1e, x1, m2e, x2)), lrest) =>
            some (⟨member1, pkg1, ver1, member2, extra2, pkg2, ver2,
                   m1e, x1, m2e, x2⟩, lrest)

/-- Python `re.finditer` scan: try the pattern at each position left to
right; on a match continue after its end.  The fuel is the input length,
which suffices because every iteration consumes at least one character. -/
def scanAux {α : Type} (matchAt : List Char → Option (α × List Char)) :
    Nat → List Char → List α
  | 0, _ => []
  | _, [] => []
  | Nat.succ fuel, c :: rest =>
    match matchAt (c :: rest) with
    | some (m, r) => m :: scanAux matchAt fuel r
    | none => scanAux matchAt fuel rest

/-- All `conflict_pattern1` matches of the normalized diagnostic. -/
def finditer1 (l : List Char) : List Match1 := scanAux matchPattern1At l.length l

/-- All `conflict_pattern2` matches of the normalized diagnostic. -/
def finditer2 (l : List Char) : List Match2 := scanAux matchPattern2At l.length l

/-- The two-entry dict literal `{member1.strip(): ver1.strip(),
member2.strip(): ver2.strip()}`. -/
def conflictDict (m1 v1 m2 v2 : List Char) : List (String × String) :=
  pyDictSet (pyDictSet [] (String.mk (pyStripChars m1)) (String.mk (pyStripChars v1)))
    (String.mk (pyStripChars m2)) (String.mk (pyStripChars v2))

/-- The loop body for pattern-1 matches (main.py lines 154-166): accept only
matches with equal extras and equal package names. -/
def processMatch1 (m : Match1) : Option WorkspaceConflict :=
  if m.extra1 = m.extra2 ∧ m.pkg1 = m.pkg2 then
    some ⟨String.mk (pyStripChars m.pkg1), String.mk (pyStripChars m.extra1),
          conflictDict m.member1 m.ver1 m.member2 m.ver2⟩
  else none

/-- The loop body for pattern-2 matches (main.py lines 169-182): accept only
matches whose trailing incompatibility clause repeats the two member names,
whose two trailing extras agree with each other, and whose two leading
package names agree. -/
def processMatch2 (m : Match2) : Option WorkspaceConflict :=
  if m.member1_extra = m.member1 ∧ m.member2_extra = m.member2 ∧
      m.extra1 = m.extra2_full ∧ m.pkg1 = m.pkg2 then
    some ⟨String.mk (pyStripChars m.pkg1), String.mk (pyStripChars m.extra1),
          conflictDict m.member1 m.ver1 m.member2 m.ver2⟩
  else none

/-- The fixed marker phrase checked before any pattern matching. -/
def noSolutionMarker : String := "No solution found when resolving dependencies"

/-- main.py `parse_workspace_conflict`. -/
def parse_workspace_conflict (stderr : String) : Option (List WorkspaceConflict) :=
  if !pyContains stderr noSolutionMarker then none
  else
    let normalized := collapseWs false stderr.data
    let cs1 := (finditer1 normalized).filterMap processMatch1
    let cs2 := (finditer2 normalized).filterMap processMatch2
    some (cs1 ++ cs2)

/-! ### Version oracle and target-version policy (main.py lines 186-212)

`query_pypi_latest` performs network I/O; it is passed in as an explicit
oracle `query : String → Bool → Option String` (package name, allow_pre ↦
latest version, or `none` on any failure). -/

/-- main.py `get_latest_version`: encode an absent (or empty, hence falsy)
oracle answer as the literal string `"unknown"`. -/
def get_latest_version (query : String → Bool → Option String)
    (package_name : String) (indexes : List String) (allow_pre : Bool) : String :=
  let _ := indexes
  match query package_name allow_pre with
  | some v => if v = "" then "unknown" else v
  | none => "unknown"

/-- The loop body of `determine_target_versions`.  Python exceptions (the
`raise ValueError` for an unknown policy, and `max()` on an empty sequence)
become `Except.error`; both are raised inside the per-conflict loop, so they
fire only while a conflict is being processed. -/
def dtvStep (query : String → Bool → Option String) (policy : String)
    (tv : List (String × String)) (conflict : WorkspaceConflict) :
    Except String (List (String × String)) :=
  if policy = "latest" then
    let latest := get_latest_version query conflict.package_name [] false
    if latest ≠ "unknown" then
      Except.ok (pyDictSet tv conflict.package_name latest)
    else
      match pyMaxList (conflict.conflicts.map Prod.snd) with
      | some m => Except.ok (pyDictSet tv conflict.package_name m)
      | none => Except.error "max() arg is an empty sequence"
  else if policy = "max" then
    match pyMaxList (conflict.conflicts.map Prod.snd) with
    | some m => Except.ok (pyDictSet tv conflict.package_name m)
    | none => Except.error "max() arg is an empty sequence"
  else Except.error ("Unknown policy: " ++ policy)

/-- main.py `determine_target_versions`. -/
def determine_target_versions (query : String → Bool → Option String)
    (conflicts : List WorkspaceConflict) (policy : String) :
    Except String (List (String × String)) :=
  conflicts.foldlM (dtvStep query policy) []

/-- The value the `"max"` policy assigns to one conflict: the
lexicographically largest of its members' pins. -/
def maxTarget (c : WorkspaceConflict) : String :=
  (pyMaxList (c.conflicts.map Prod.snd)).getD ""

/-- The value the `"latest"` policy assigns to one conflict: the encoded
oracle answer unless it is the string `"unknown"`, else the max fallback. -/
def latestTarget (query : String → Bool → Option String)
    (c : WorkspaceConflict) : String :=
  let glv := get_latest_version query c.package_name [] false
  if glv ≠ "unknown" then glv else maxTarget c

/-! ### Declaration-site lookup (`find_package_location_in_member`,
main.py lines 255-302)

The filesystem is passed in as `fs : String → Option TomlData` (member name ↦
parsed member pyproject, `none` when missing or unreadable). -/

/-- Does any requirement in `deps` parse to a non-SKIP record whose
normalized name equals `norm`? -/
def depListHasPkg (norm : String) (deps : List String) : Bool :=
  deps.any (fun dep =>
    match parse_req dep with
    | some (n, _, _, _) => n ≠ "SKIP" && pep503 n = norm
    | none => false)

/-- First group in `entries` whose (list-valued) entry contains the package. -/
def findGroupWithPkg (norm : String) (entries : List (String × PyVal)) :
    Option String :=
  entries.findSome? (fun entry =>
    match entry.2 with
    | PyVal.list ds => if depListHasPkg norm ds then some entry.1 else none
    | PyVal.other => none)

/-- main.py `find_package_location_in_member`: `none` for "main dependencies
or not found or unreadable", `some g` for an optional-dependencies group,
`some ("group:" ++ g)` for a dependency group. -/
def find_package_location_in_member (fs : String → Option TomlData)
    (member : String) (package_name : String) : Option String :=
  match fs member with
  | none => none
  | some data =>
    let norm := pep503 package_name
    if depListHasPkg norm data.dependencies then none
    else
      match findGroupWithPkg norm data.optional_dependencies with
      | some g => some g
      | none =>
        match findGroupWithPkg norm data.dependency_groups with
        | some g => some ("group:" ++ g)
        | none => none

/-! ### Workspace alignment (`align_workspace_members`, main.py lines 305-404)

The subprocess runner is passed in as `runner : List String → RunRes`.  The
embedding returns, besides the Bool result, the trace of issued commands with
their results and the error messages printed on failure; `none` models the
uncaught `KeyError` raised by `resolution.target_versions[…]` when a
conflict's package has no target version. -/

/-- Result of one `uv` subprocess invocation (returncode and stderr). -/
structure RunRes where
  returncode : Int
  stderr : String
  deriving Repr, DecidableEq

/-- main.py `ConflictResolution`.  `affected_members` is a Python set,
modelled as a list whose order is irrelevant because the code only iterates
`sorted(...)` over it. -/
structure ConflictResolution where
  extra_name : String
  conflicts : List WorkspaceConflict
  target_versions : List (String × String)
  affected_members : List String
  deriving Repr, DecidableEq

/-- Insert a string into a (sorted) list, keeping `pyStrLe` order. -/
def insertSorted (x : String) : List String → List String
  | [] => [x]
  | y :: t => if pyStrLe x y then x :: y :: t else y :: insertSorted x t

/-- Python `sorted(...)` over a set of strings: the distinct elements in
increasing lexicographic order. -/
def pySortedSet (l : List String) : List String :=
  l.dedup.foldr insertSorted []

/-- The specs staged for one member, grouped by declaration site exactly as
the per-member loop body of `align_workspace_members` does: `main_specs`,
`optional_specs` and `group_specs` in first-occurrence order.  `none` when
some conflict's package is missing from `target_versions` (Python
`KeyError`). -/
def stageSpecsForMember (fs : String → Option TomlData)
    (resolution : ConflictResolution) (member : String) :
    Option (List String × List (String × List String) × List (String × List String)) :=
  resolution.conflicts.foldlM
    (fun (acc : List String × List (String × List String) × List (String × List String))
        conflict =>
      if (conflict.conflicts.lookup member).isSome then
        match resolution.target_versions.lookup conflict.package_name with
        | none => none
        | some target_version =>
          let spec := conflict.package_name ++ "==" ++ target_version
          match find_package_location_in_member fs member conflict.package_name with
          | none => some (acc.1 ++ [spec], acc.2.1, acc.2.2)
          | some location =>
            if location.startsWith "group:" then
              some (acc.1, acc.2.1, pyDictAppend acc.2.2 (location.drop 6) spec)
            else
              some (acc.1, pyDictAppend acc.2.1 location spec, acc.2.2)
      else some acc)
    ([], [], [])

/-- One staging command, labelled with the site kind word used in its error
message ("main", "optional" or "group") and its member. -/
structure StagedCmd where
  kind : String
  member : String
  cmd : List String
  deriving Repr, DecidableEq

/-- The staging commands for one member, in source order: main deps first,
then one command per optional group, then one per dependency group. -/
def memberStagedCmds (fs : String → Option TomlData)
    (resolution : ConflictResolution) (member : String) : Option (List StagedCmd) :=
  match stageSpecsForMember fs resolution member with
  | none => none
  | some (mainSpecs, optionalSpecs, groupSpecs) =>
    let mainCmds :=
      if mainSpecs.isEmpty then []
      else [StagedCmd.mk "main" member
        (["uv", "add", "--project", member, "--frozen"] ++ mainSpecs)]
    let optCmds := optionalSpecs.map (fun gs =>
      StagedCmd.mk "optional" member
        (["uv", "add", "--project", member, "--frozen", "--optional", gs.1] ++ gs.2))
    let grpCmds := groupSpecs.map (fun gs =>
      StagedCmd.mk "group" member
        (["uv", "add", "--project", member, "--frozen", "--group", gs.1] ++ gs.2))
    some (mainCmds ++ optCmds ++ grpCmds)

/-- Recognize a staging command and extract the member it targets: every
staging call has the shape `uv add --project <member> --frozen …`; `uv lock`
and `uv sync` do not match. -/
def stagingMemberOf (cmd : List String) : Option String :=
  match cmd with
  | "uv" :: "add" :: "--project" :: m :: "--frozen" :: _ => some m
  | _ => none

/-- Run the staged commands in order, stopping at the first failure exactly
as the early `return False` does; returns the executed trace, the error
messages printed, and whether all commands succeeded. -/
def execStaged (runner : List String → RunRes) :
    List StagedCmd → List (List String × RunRes) × List String × Bool
  | [] => ([], [], true)
  | sc :: rest =>
    let res := runner sc.cmd
    if res.returncode ≠ 0 then
      ([(sc.cmd, res)],
       ["Failed to stage " ++ sc.kind ++ " deps for member '" ++ sc.member ++ "'"] ++
         (if res.stderr ≠ "" then [res.stderr] else []),
       false)
    else
      let (t, lg, ok) := execStaged runner rest
      ((sc.cmd, res) :: t, lg, ok)

/-- main.py `align_workspace_members`.  Returns `none` on the `KeyError`
described above; otherwise `(ok, trace, messages)` where `trace` lists every
issued command with its result and `messages` the failure diagnostics. -/
def align_workspace_members (fs : String → Option TomlData)
    (runner : List String → RunRes) (resolution : ConflictResolution)
    (sync : Bool) (indexes : List String) (allow_pre : Bool) :
    Option (Bool × List (List String × RunRes) × List String) :=
  let _ := indexes
  let _ := allow_pre
  let members := pySortedSet resolution.affected_members
  match members.foldlM
      (fun (acc : List StagedCmd) m =>
        (memberStagedCmds fs resolution m).map (fun cs => acc ++ cs)) [] with
  | none => none
  | some staged =>
    let (trace, lg, ok) := execStaged runner staged
    if !ok then some (false, trace, lg)
    else
      let lockRes := runner ["uv", "lock"]
      let trace := trace ++ [(["uv", "lock"], lockRes)]
      if lockRes.returncode ≠ 0 then
        some (false, trace,
          lg ++ ["uv lock failed after alignment. Files have been modified."] ++
            (if lockRes.stderr ≠ "" then [lockRes.stderr] else []))
      else if sync then
        let syncRes := runner ["uv", "sync"]
        let trace := trace ++ [(["uv", "sync"], syncRes)]
        if syncRes.returncode ≠ 0 then
          some (false, trace,
            lg ++ ["uv sync failed but lock succeeded. Environment may be inconsistent."] ++
              (if syncRes.stderr ≠ "" then [syncRes.stderr] else []))
        else some (true, trace, lg)
      else some (true, trace, lg)

/-! ### Orchestrator (main.py lines 487-504 and 548-607)

The update-plan construction and the per-group execution loop of `main`. -/

/-- main.py `build_uv_add_base`. -/
def build_uv_add_base (group : Option String) (frozen : Bool)
    (allow_pre : Bool) (indexes : List String) (is_optional : Bool) :
    List String :=
  let args := ["uv", "add"]
  let args := if frozen then args ++ ["--frozen"] else args
  let args :=
    match group with
    | some g => args ++ (if is_optional then ["--optional", g] else ["--group", g])
    | none => args
  let args := if allow_pre then args ++ ["--prerelease", "always"] else args
  args ++ indexes.foldr (fun idx acc => ["--index", idx] ++ acc) []

/-- Python truthiness of an optional string (`None` and `""` are falsy). -/
def pyTruthy : Option String → Bool
  | none => false
  | some s => s ≠ ""

/-- The plan loop of `main` (lines 548-555): keep only deps with a truthy
pin whose latest known version is truthy and differs from the pin. -/
def buildPlan (groups : List (Option String × List Dep))
    (latest_map : List (String × String)) :
    List (Option String × Dep × String) :=
  groups.foldl
    (fun plan entry =>
      entry.2.foldl
        (fun plan d =>
          if !pyTruthy d.pinned then plan
          else
            match latest_map.lookup (pep503 d.name) with
            | none => plan
            | some latest =>
              if latest ≠ "" ∧ some latest ≠ d.pinned then
                plan ++ [(entry.1, d, latest)]
              else plan)
        plan)
    []

/-- One exact-pin requirement spec `name + extras + "==" + latest` with the
marker appended when truthy (lines 587-590). -/
def specOf (d : Dep) (latest : String) : String :=
  let s := d.name ++ d.extras ++ "==" ++ latest
  match d.marker with
  | some m => if m ≠ "" then s ++ "; " ++ m else s
  | none => s

/-- The per-group execution loop of `main` (lines 580-605): one batched
mutating call per group with pending updates; a failing call records `rc = 1`
and the loop continues with the remaining groups.  Returns the final `rc`
and the trace of issued commands with their results. -/
def mainUpdatePhase (runner : List String → RunRes)
    (groupNames : List (Option String)) (is_optional_map : List (String × Bool))
    (plan : List (Option String × Dep × String))
    (allow_pre : Bool) (indexes : List String) :
    Int × List (List String × RunRes) :=
  groupNames.foldl
    (fun (acc : Int × List (List String × RunRes)) gname =>
      let to_update := plan.filterMap
        (fun entry => if entry.1 = gname then some (entry.2.1, entry.2.2) else none)
      if to_update.isEmpty then acc
      else
        let is_opt :=
          match gname with
          | none => false
          | some g => (is_optional_map.lookup g).getD false
        let base := build_uv_add_base gname true allow_pre indexes is_opt
        let reqs := to_update.map (fun du => specOf du.1 du.2)
        let cmd := base ++ reqs
        let res := runner cmd
        let rc : Int := if res.returncode ≠ 0 then 1 else acc.1
        (rc, acc.2 ++ [(cmd, res)]))
    (0, [])

/-- The step after the loop (lines 606-607): a nonzero accumulated `rc`
aborts the run via `die` before `uv lock` is ever attempted. -/
def mainAfterUpdates (rc : Int) : Except (Int × String) Unit :=
  if rc ≠ 0 then
    Except.error (rc, "One or more uv add commands failed. See output above.")
  else Except.ok ()

/-! ### Concrete scenario data used by counterexamples and witnesses -/

/-- A diagnostic in the shape the repository's own tests feed to a failing
per-group `uv add` call: the marker phrase plus one pattern-1 conflict. -/
def c1ConflictStderr : String :=
  "No solution found when resolving dependencies: Because common[dev] depends on flake8==7.2.0 and qluster-sdk[dev] depends on flake8==7.3.0, we cannot use them together."

/-- A pinned main dependency for the orchestrator scenario. -/
def c1DepMain : Dep := ⟨"requests==1.0.0", "requests", "", some "1.0.0", none⟩

/-- A pinned dev dependency for the orchestrator scenario. -/
def c1DepDev : Dep := ⟨"flake8==7.2.0", "flake8", "", some "7.2.0", none⟩

/-- The update plan of the orchestrator scenario: one update in the main
group, one in the optional group `dev`. -/
def c1Plan : List (Option String × Dep × String) :=
  [(none, c1DepMain, "2.0.0"), (some "dev", c1DepDev, "7.4.0")]

/-- The batched command the orchestrator issues for the main group. -/
def c1CmdMain : List String := ["uv", "add", "--frozen", "requests==2.0.0"]

/-- The batched command the orchestrator issues for the `dev` group. -/
def c1CmdDev : List String :=
  ["uv", "add", "--frozen", "--optional", "dev", "flake8==7.4.0"]

/-- A runner that fails the main-group call with a workspace-conflict
diagnostic and succeeds on everything else. -/
def c1Runner (cmd : List String) : RunRes :=
  if cmd = c1CmdMain then ⟨1, c1ConflictStderr⟩ else ⟨0, ""⟩

/-- A pattern-2 diagnostic whose leading clause pins the extra `test` while
its trailing incompatibility clause names the extra `dev` on both members. -/
def p2MismatchDiag : String :=
  "No solution found when resolving dependencies: Because common depends on pydantic==2.11.7 and sdk[test] depends on pydantic==2.11.5, we can conclude that common[dev] and sdk[dev] are incompatible."

/-! ### The valid-specifier format of the spec (for the requirement parser)

The spec promises exact recovery on strings of the form
`name[extras]==version; marker` (extras and marker optional).  These
definitions render that format; they follow the spec text, not the code. -/

/-- The captured extras group for an optional extras segment: the segment
with its brackets, as the regex group captures it. -/
def extrasGroup : Option (List Char) → Option (List Char)
  | none => none
  | some e => some ('[' :: (e ++ [']']))

/-- The extras string a parse returns: the bracketed segment, or empty. -/
def extrasStr (ex : Option (List Char)) : List Char :=
  (extrasGroup ex).getD []

/-- The rendered `"; marker"` suffix of a specifier, empty when absent. -/
def markerStr : Option (List Char) → List Char
  | none => []
  | some m => ';' :: ' ' :: m

/-- A specifier string of the spec's `name[extras]==version; marker` form. -/
def specString (n : List Char) (ex : Option (List Char)) (v : List Char)
    (mk : Option (List Char)) : String :=
  String.mk (n ++ (extrasStr ex ++ ('=' :: '=' :: (v ++ markerStr mk))))

/-- A valid requirement name: a leading alphanumeric followed by name
characters (the regex `[A-Za-z0-9][A-Za-z0-9_.-]*`). -/
def validName (n : List Char) : Bool :=
  match n with
  | [] => false
  | c :: rest => isAlnumA c && rest.all isNameChar

/-- The part of a (stripped) requirement before its first `;`, or all of it:
the `left` of `parse_req`. -/
def leftOf (s : List Char) : List Char :=
  match splitSemi s with
  | some (l, _) => l
  | none => s

/-- A concrete resolution for exercising the aligning phase: one conflict
over flake8 between two members, with a target version recorded. -/
def c5Resolution : ConflictResolution :=
  ⟨"dev",
   [⟨"flake8", "dev", [("pkg-b", "7.2.0"), ("pkg-a", "7.3.0")]⟩],
   [("flake8", "7.4.0")],
   ["pkg-b", "pkg-a"]⟩

/-- A workspace whose member pyprojects are all unreadable, so every staged
spec lands in the main-dependencies bucket. -/
def c5Fs : String → Option TomlData := fun _ => none

/-- A runner on which every uv invocation succeeds. -/
def c5Runner : List String → RunRes := fun _ => ⟨0, ""⟩

/-! ## Theorems -/

set_option maxRecDepth 4000000

/-! ### Character-level facts about `Char.toLower` -/

theorem toNat_charOfNat {n : Nat} (h : n < 0xd800) : (Char.ofNat n).toNat = n := by
  have hv : n.isValidChar := Or.inl h
  simp only [Char.ofNat, hv, dif_pos, Char.ofNatAux, Char.toNat, UInt32.toNat]
  simp [BitVec.toNat_ofNatLt]

theorem char_toNat_inj {a b : Char} (h : a.toNat = b.toNat) : a = b := by
  apply Char.eq_of_val_eq
  apply UInt32.eq_of_toBitVec_eq
  exact BitVec.eq_of_toNat_eq h

theorem toLower_toNat_of_upper {c : Char} (h1 : 65 ≤ c.toNat) (h2 : c.toNat ≤ 90) :
    (Char.toLower c).toNat = c.toNat + 32 := by
  unfold Char.toLower
  rw [if_pos ⟨h1, h2⟩]
  exact toNat_charOfNat (by omega)

theorem toLower_of_not_upper {c : Char} (h : ¬(65 ≤ c.toNat ∧ c.toNat ≤ 90)) :
    Char.toLower c = c := by
  unfold Char.toLower
  rw [if_neg]
  intro hc
  exact h ⟨hc.1, hc.2⟩

theorem isSep_toLower (c : Char) : isSep (Char.toLower c) = isSep c := by
  by_cases h : 65 ≤ c.toNat ∧ c.toNat ≤ 90
  · have ht := toLower_toNat_of_upper h.1 h.2
    have hd : ('-' : Char).toNat = 45 := by decide
    have hu : ('_' : Char).toNat = 95 := by decide
    have hp : ('.' : Char).toNat = 46 := by decide
    have hs1 : isSep (Char.toLower c) = false := by
      simp only [isSep]
      have e1 : (Char.toLower c ≠ '-') := by
        intro he; rw [he, hd] at ht; omega
      have e2 : (Char.toLower c ≠ '_') := by
        intro he; rw [he, hu] at ht; omega
      have e3 : (Char.toLower c ≠ '.') := by
        intro he; rw [he, hp] at ht; omega
      simp [e1, e2, e3]
    have hs2 : isSep c = false := by
      simp only [isSep]
      have e1 : (c ≠ '-') := by intro he; rw [he, hd] at h; omega
      have e2 : (c ≠ '_') := by intro he; rw [he, hu] at h; omega
      have e3 : (c ≠ '.') := by intro he; rw [he, hp] at h; omega
      simp [e1, e2, e3]
    rw [hs1, hs2]
  · rw [toLower_of_not_upper h]

theorem toLower_idem (c : Char) : Char.toLower (Char.toLower c) = Char.toLower c := by
  by_cases h : 65 ≤ c.toNat ∧ c.toNat ≤ 90
  · have ht := toLower_toNat_of_upper h.1 h.2
    apply toLower_of_not_upper
    omega
  · rw [toLower_of_not_upper h]
    exact toLower_of_not_upper h

theorem toLower_dash : Char.toLower '-' = '-' := by decide

/-! ### Structural facts about `collapseSeps` -/

theorem collapseSeps_map_toLower (b : Bool) (l : List Char) :
    collapseSeps b (l.map Char.toLower) = (collapseSeps b l).map Char.toLower := by
  induction l generalizing b with
  | nil => rfl
  | cons c rest ih =>
    simp only [List.map_cons, collapseSeps, isSep_toLower]
    by_cases hs : isSep c
    · simp only [hs, if_pos]
      cases b with
      | true => simpa using ih true
      | false => simp [ih true, toLower_dash]
    · simp [hs, ih false]

theorem collapseSeps_idem (l : List Char) :
    (∀ b, collapseSeps b (collapseSeps true l) = collapseSeps true l) ∧
      collapseSeps false (collapseSeps false l) = collapseSeps false l := by
  induction l with
  | nil => exact ⟨fun _ => rfl, rfl⟩
  | cons c rest ih =>
    constructor
    · intro b
      by_cases hs : isSep c
      · simp only [collapseSeps, hs, if_pos, if_true]
        exact ih.1 b
      · simp only [collapseSeps, hs, if_neg, ite_false, Bool.false_eq_true]
        simp [hs, ih.2]
    · by_cases hs : isSep c
      · simp only [collapseSeps, hs, if_pos, if_true, ite_false]
        have hd : isSep '-' = true := by decide
        simp [hd, ih.1 true]
      · simp only [collapseSeps, hs, ite_false, Bool.false_eq_true]
        simp [hs, ih.2]

/-- C7 (part of the statement): `pep503` is idempotent, and identifies names
differing only in case and in runs of the separators `-`, `_`, `.`. -/
theorem pep503_spec :
    (∀ x : String, pep503 (pep503 x) = pep503 x) ∧
      pep503 "Foo_Bar.Baz" = pep503 "foo-bar-baz" := by
  constructor
  · intro x
    simp only [pep503]
    rw [collapseSeps_map_toLower, List.map_map]
    have h1 : (collapseSeps false (collapseSeps false x.data)) = collapseSeps false x.data :=
      (collapseSeps_idem x.data).2
    rw [h1]
    congr 1
    apply List.map_congr_left
    intro c _
    exact toLower_idem c
  · decide

/-- C3: `parse_workspace_conflict` returns `none` ("not a conflict") exactly
when the marker phrase "No solution found when resolving dependencies" is
absent from the raw diagnostic, and when the marker is present but neither
pattern matches it returns `some []`, a value distinct from `none`. -/
theorem parse_workspace_conflict_none_iff :
    (∀ s : String,
      parse_workspace_conflict s = none ↔ pyContains s noSolutionMarker = false) ∧
      parse_workspace_conflict
        "No solution found when resolving dependencies: no recognized pattern." =
        some [] := by
  constructor
  · intro s
    cases h : pyContains s noSolutionMarker
    · simp [parse_workspace_conflict, h]
    · simp [parse_workspace_conflict, h]
  · decide

/-- C4 (amended): a pattern-2 match produces a Workspace Conflict exactly
when the two member names of the trailing incompatibility clause repeat the
two member names of the leading clause, the two extras inside the trailing
clause agree with each other, and the two package names of the leading
clause agree; the extra of the leading clause is not compared. -/
theorem processMatch2_field_check (m : Match2) :
    (processMatch2 m).isSome = true ↔
      (m.member1_extra = m.member1 ∧ m.member2_extra = m.member2 ∧
       m.extra1 = m.extra2_full ∧ m.pkg1 = m.pkg2) := by
  unfold processMatch2
  split <;> simp_all

/-- C4 (counterexample): on a diagnostic whose leading clause pins the extra
`test` while the trailing clause names `dev` on both members, the parser
still produces a conflict (with extra `dev`), although the claim requires
the trailing extras to match the extras named in the leading clause. -/
theorem processMatch2_leading_extra_unchecked :
    parse_workspace_conflict p2MismatchDiag =
      some [⟨"pydantic", "dev", [("common", "2.11.7"), ("sdk", "2.11.5")]⟩] ∧
    pyContains p2MismatchDiag "sdk[test] depends on pydantic" = true ∧
    ("dev" : String) ≠ "test" := by
  refine ⟨by decide, by decide, by decide⟩

/-- C1: evaluated at the scenario the claim describes (a per-group `uv add`
failing with a conflict diagnostic the Conflict Parser fully recognizes),
the orchestrator's update loop still issues the remaining group's command,
accumulates `rc = 1`, and takes the `die` path; it never consults the
parser nor hands off to the resolver. -/
theorem main_no_conflict_handoff :
    mainUpdatePhase c1Runner [none, some "dev"] [("dev", true)] c1Plan false [] =
      (1, [(c1CmdMain, ⟨1, c1ConflictStderr⟩), (c1CmdDev, ⟨0, ""⟩)]) ∧
    mainAfterUpdates
        (mainUpdatePhase c1Runner [none, some "dev"] [("dev", true)] c1Plan false []).1 =
      Except.error (1, "One or more uv add commands failed. See output above.") ∧
    parse_workspace_conflict c1ConflictStderr =
      some [⟨"flake8", "dev", [("common", "7.2.0"), ("qluster-sdk", "7.3.0")]⟩] := by
  refine ⟨by decide, by rfl, by decide⟩

/-! ### Lemmas about `determine_target_versions` -/

theorem pyMaxList_of_ne_nil {l : List String} (h : l ≠ []) :
    pyMaxList l = some ((pyMaxList l).getD "") := by
  cases l with
  | nil => exact absurd rfl h
  | cons v vs => rfl

theorem dtvStep_max_eq (query : String → Bool → Option String)
    (tv : List (String × String)) {c : WorkspaceConflict} (h : c.conflicts ≠ []) :
    dtvStep query "max" tv c = Except.ok (pyDictSet tv c.package_name (maxTarget c)) := by
  have hm : c.conflicts.map Prod.snd ≠ [] := fun he => h (List.map_eq_nil_iff.mp he)
  have h2 := pyMaxList_of_ne_nil hm
  unfold dtvStep
  rw [if_neg (by decide : ¬("max" : String) = "latest"), if_pos rfl, h2]
  rfl

theorem dtvStep_latest_eq (query : String → Bool → Option String)
    (tv : List (String × String)) {c : WorkspaceConflict} (h : c.conflicts ≠ []) :
    dtvStep query "latest" tv c =
      Except.ok (pyDictSet tv c.package_name (latestTarget query c)) := by
  have hm : c.conflicts.map Prod.snd ≠ [] := fun he => h (List.map_eq_nil_iff.mp he)
  have h2 := pyMaxList_of_ne_nil hm
  unfold dtvStep latestTarget
  rw [if_pos rfl]
  by_cases hg : get_latest_version query c.package_name [] false ≠ "unknown"
  · rw [if_pos hg, if_pos hg]
  · rw [if_neg hg, if_neg hg, h2]
    rfl

theorem dtvStep_other_eq (query : String → Bool → Option String)
    (tv : List (String × String)) (c : WorkspaceConflict) {policy : String}
    (h1 : policy ≠ "latest") (h2 : policy ≠ "max") :
    dtvStep query policy tv c = Except.error ("Unknown policy: " ++ policy) := by
  unfold dtvStep
  rw [if_neg h1, if_neg h2]

theorem foldlM_ok_of_step {α β : Type} (step : β → α → Except String β)
    (g : β → α → β) (l : List α) :
    (∀ b a, a ∈ l → step b a = Except.ok (g b a)) →
    ∀ b, l.foldlM step b = Except.ok (l.foldl g b) := by
  induction l with
  | nil => intro _ b; rfl
  | cons a t ih =>
    intro h b
    rw [List.foldlM_cons, h b a (List.mem_cons_self a t)]
    show t.foldlM step (g b a) = Except.ok (List.foldl g b (a :: t))
    rw [List.foldl_cons]
    exact ih (fun b x hx => h b x (List.mem_cons_of_mem a hx)) (g b a)

theorem lookup_pyDictSet_self {α β : Type} [DecidableEq α] [BEq α] [LawfulBEq α]
    (d : List (α × β)) (k : α) (v : β) :
    (pyDictSet d k v).lookup k = some v := by
  induction d with
  | nil =>
    simp only [pyDictSet]
    rw [List.lookup_cons, beq_self_eq_true]
  | cons e t ih =>
    obtain ⟨k0, v0⟩ := e
    by_cases he : k0 = k
    · subst he
      simp only [pyDictSet]
      rw [if_pos trivial, List.lookup_cons, beq_self_eq_true]
    · simp only [pyDictSet, if_neg he]
      rw [List.lookup_cons,
        show (k == k0) = false from beq_eq_false_iff_ne.mpr (fun hx => he hx.symm)]
      exact ih

theorem lookup_pyDictSet_ne {α β : Type} [DecidableEq α] [BEq α] [LawfulBEq α]
    (d : List (α × β)) (k : α) (v : β) (k' : α) (h : k' ≠ k) :
    (pyDictSet d k v).lookup k' = d.lookup k' := by
  have hb : (k' == k) = false := beq_eq_false_iff_ne.mpr h
  induction d with
  | nil =>
    simp only [pyDictSet]
    rw [List.lookup_cons, hb]
  | cons e t ih =>
    obtain ⟨k0, v0⟩ := e
    by_cases he : k0 = k
    · subst he
      simp only [pyDictSet]
      rw [if_pos trivial, List.lookup_cons, List.lookup_cons, hb]
    · simp only [pyDictSet, if_neg he]
      rw [List.lookup_cons, List.lookup_cons]
      by_cases hk : k' = k0
      · rw [show (k' == k0) = true from beq_iff_eq.mpr hk]
      · rw [show (k' == k0) = false from beq_eq_false_iff_ne.mpr hk]
        exact ih

theorem foldl_pyDictSet_lookup_not_mem (f : WorkspaceConflict → String) :
    ∀ (l : List WorkspaceConflict) (tv : List (String × String)) (k : String),
      k ∉ l.map WorkspaceConflict.package_name →
      (l.foldl (fun tv c => pyDictSet tv c.package_name (f c)) tv).lookup k =
        tv.lookup k := by
  intro l
  induction l with
  | nil => intro tv k _; rfl
  | cons c t ih =>
    intro tv k h
    simp only [List.map_cons, List.mem_cons, not_or] at h
    rw [List.foldl_cons, ih _ _ h.2, lookup_pyDictSet_ne _ _ _ _ h.1]

theorem foldl_pyDictSet_lookup_nodup (f : WorkspaceConflict → String) :
    ∀ (l : List WorkspaceConflict) (tv : List (String × String)),
      (l.map WorkspaceConflict.package_name).Nodup →
      ∀ c ∈ l,
        (l.foldl (fun tv c => pyDictSet tv c.package_name (f c)) tv).lookup
          c.package_name = some (f c) := by
  intro l
  induction l with
  | nil => intro tv _ c hc; exact absurd hc (List.not_mem_nil c)
  | cons c0 t ih =>
    intro tv hnd c hc
    rw [List.map_cons, List.nodup_cons] at hnd
    rw [List.foldl_cons]
    rcases List.mem_cons.mp hc with rfl | hmem
    · rw [foldl_pyDictSet_lookup_not_mem f t _ _ hnd.1]
      exact lookup_pyDictSet_self tv c.package_name (f c)
    · exact ih _ hnd.2 c hmem

/-- C2 (amended): `determine_target_versions` under `"max"` maps each
conflict's package to the lexicographically largest of that conflict's
member pins; under `"latest"` it maps the package to the encoded oracle
answer when that answer is not the literal string `"unknown"`, and otherwise
to the same max rule; any other policy string raises `ValueError`, provided
at least one conflict is processed (on an empty conflict list no policy
check happens and an empty mapping is returned). -/
theorem determine_target_versions_spec
    (query : String → Bool → Option String) (conflicts : List WorkspaceConflict)
    (hne : ∀ c ∈ conflicts, c.conflicts ≠ [])
    (hnd : (conflicts.map WorkspaceConflict.package_name).Nodup) :
    (∃ t, determine_target_versions query conflicts "max" = Except.ok t ∧
        ∀ c ∈ conflicts,
          t.lookup c.package_name = some (maxTarget c) ∧
            pyMaxList (c.conflicts.map Prod.snd) = some (maxTarget c)) ∧
    (∃ t, determine_target_versions query conflicts "latest" = Except.ok t ∧
        ∀ c ∈ conflicts, t.lookup c.package_name = some (latestTarget query c)) ∧
    (∀ policy, policy ≠ "latest" → policy ≠ "max" → conflicts ≠ [] →
        determine_target_versions query conflicts policy =
          Except.error ("Unknown policy: " ++ policy)) := by
  refine ⟨?_, ?_, ?_⟩
  · refine ⟨_, foldlM_ok_of_step _ _ conflicts
      (fun b a ha => dtvStep_max_eq query b (hne a ha)) [], ?_⟩
    intro c hc
    refine ⟨foldl_pyDictSet_lookup_nodup maxTarget conflicts [] hnd c hc, ?_⟩
    exact pyMaxList_of_ne_nil (fun he => hne c hc (List.map_eq_nil_iff.mp he))
  · refine ⟨_, foldlM_ok_of_step _ _ conflicts
      (fun b a ha => dtvStep_latest_eq query b (hne a ha)) [], ?_⟩
    intro c hc
    exact foldl_pyDictSet_lookup_nodup (latestTarget query) conflicts [] hnd c hc
  · intro policy h1 h2 h3
    cases conflicts with
    | nil => exact absurd rfl h3
    | cons c t =>
      unfold determine_target_versions
      rw [List.foldlM_cons, dtvStep_other_eq query [] c h1 h2]
      rfl

/-- C2 (witness): the amended statement applied to a concrete oracle and a
concrete single-conflict list. -/
theorem determine_target_versions_spec_witness :
    (∃ t, determine_target_versions (fun _ _ => none)
        [⟨"flake8", "dev", [("common", "7.2.0"), ("qluster-sdk", "7.3.0")]⟩]
        "max" = Except.ok t ∧
        ∀ c ∈ [(⟨"flake8", "dev", [("common", "7.2.0"), ("qluster-sdk", "7.3.0")]⟩ :
            WorkspaceConflict)],
          t.lookup c.package_name = some (maxTarget c) ∧
            pyMaxList (c.conflicts.map Prod.snd) = some (maxTarget c)) ∧
    (∃ t, determine_target_versions (fun _ _ => none)
        [⟨"flake8", "dev", [("common", "7.2.0"), ("qluster-sdk", "7.3.0")]⟩]
        "latest" = Except.ok t ∧
        ∀ c ∈ [(⟨"flake8", "dev", [("common", "7.2.0"), ("qluster-sdk", "7.3.0")]⟩ :
            WorkspaceConflict)],
          t.lookup c.package_name = some (latestTarget (fun _ _ => none) c)) ∧
    (∀ policy, policy ≠ "latest" → policy ≠ "max" →
        [(⟨"flake8", "dev", [("common", "7.2.0"), ("qluster-sdk", "7.3.0")]⟩ :
            WorkspaceConflict)] ≠ [] →
        determine_target_versions (fun _ _ => none)
          [⟨"flake8", "dev", [("common", "7.2.0"), ("qluster-sdk", "7.3.0")]⟩]
          policy = Except.error ("Unknown policy: " ++ policy)) :=
  determine_target_versions_spec (fun _ _ => none)
    [⟨"flake8", "dev", [("common", "7.2.0"), ("qluster-sdk", "7.3.0")]⟩]
    (by decide) (by decide)

/-- C2 (counterexample): the claim as stated fails twice.  With an oracle
whose genuine answer is the string `"unknown"`, the `"latest"` policy does
not map the package to the oracle's available answer but falls back to the
max of the existing pins; and with an empty conflict list an unknown policy
string does not raise but returns an empty mapping. -/
theorem determine_target_versions_counterexample :
    determine_target_versions (fun _ _ => some "unknown")
        [⟨"flake8", "dev", [("common", "7.2.0"), ("qluster-sdk", "7.3.0")]⟩]
        "latest" = Except.ok [("flake8", "7.3.0")] ∧
    (fun (_ : String) (_ : Bool) => some "unknown") "flake8" false =
      some "unknown" ∧
    ("7.3.0" : String) ≠ "unknown" ∧
    determine_target_versions (fun _ _ => none) [] "bogus" = Except.ok [] := by
  refine ⟨by decide, by rfl, by decide, by decide⟩

/-- C10: an oracle lookup failure is encoded as the literal string
`"unknown"`; under the `"latest"` policy the fallback to the max of the
existing pins is taken exactly when the encoded answer equals `"unknown"`;
hence an oracle whose genuine latest version string is `"unknown"` is
indistinguishable from a failed lookup and is resolved by the max rule. -/
theorem get_latest_version_unknown_spec
    (query : String → Bool → Option String) (pkg : String)
    (indexes : List String) (allow_pre : Bool) (c : WorkspaceConflict)
    (hq : query pkg allow_pre = none)
    (hne : c.conflicts ≠ [])
    (hu : query c.package_name false = some "unknown") :
    get_latest_version query pkg indexes allow_pre = "unknown" ∧
    (∀ query2 : String → Bool → Option String,
      determine_target_versions query2 [c] "latest" =
        Except.ok [(c.package_name, latestTarget query2 c)]) ∧
    latestTarget query c = maxTarget c ∧
    determine_target_versions query [c] "latest" =
      determine_target_versions (fun _ _ => none) [c] "latest" := by
  have hlt : ∀ query2 : String → Bool → Option String,
      determine_target_versions query2 [c] "latest" =
        Except.ok [(c.package_name, latestTarget query2 c)] := by
    intro query2
    unfold determine_target_versions
    rw [List.foldlM_cons, dtvStep_latest_eq query2 [] hne]
    rfl
  have hg : get_latest_version query c.package_name [] false = "unknown" := by
    unfold get_latest_version
    rw [hu]
    simp
  have hmax : latestTarget query c = maxTarget c := by
    unfold latestTarget
    rw [hg]
    simp
  refine ⟨?_, hlt, hmax, ?_⟩
  · unfold get_latest_version
    rw [hq]
  · rw [hlt query, hlt (fun _ _ => none), hmax]
    have : latestTarget (fun _ _ => none) c = maxTarget c := by
      unfold latestTarget get_latest_version
      simp
    rw [this]

/-- C10 (witness): the statement applied to a concrete oracle that answers
`"unknown"` for the conflicting package and knows nothing else. -/
theorem get_latest_version_unknown_spec_witness :
    get_latest_version
        (fun p _ => if p = "flake8" then some "unknown" else none)
        "requests" [] false = "unknown" ∧
    (∀ query2 : String → Bool → Option String,
      determine_target_versions query2
          [⟨"flake8", "dev", [("common", "7.2.0"), ("qluster-sdk", "7.3.0")]⟩]
          "latest" =
        Except.ok [("flake8",
          latestTarget query2
            ⟨"flake8", "dev", [("common", "7.2.0"), ("qluster-sdk", "7.3.0")]⟩)]) ∧
    latestTarget (fun p _ => if p = "flake8" then some "unknown" else none)
        ⟨"flake8", "dev", [("common", "7.2.0"), ("qluster-sdk", "7.3.0")]⟩ =
      maxTarget ⟨"flake8", "dev", [("common", "7.2.0"), ("qluster-sdk", "7.3.0")]⟩ ∧
    determine_target_versions
        (fun p _ => if p = "flake8" then some "unknown" else none)
        [⟨"flake8", "dev", [("common", "7.2.0"), ("qluster-sdk", "7.3.0")]⟩]
        "latest" =
      determine_target_versions (fun _ _ => none)
        [⟨"flake8", "dev", [("common", "7.2.0"), ("qluster-sdk", "7.3.0")]⟩]
        "latest" :=
  get_latest_version_unknown_spec
    (fun p _ => if p = "flake8" then some "unknown" else none)
    "requests" [] false
    ⟨"flake8", "dev", [("common", "7.2.0"), ("qluster-sdk", "7.3.0")]⟩
    (by decide) (by decide) (by decide)

/-! ### Lemmas about the Update Planner -/

/-- The property every plan entry satisfies. -/
def PlanEntryOk (latest_map : List (String × String))
    (x : Option String × Dep × String) : Prop :=
  ∃ p, x.2.1.pinned = some p ∧ p ≠ "" ∧
    latest_map.lookup (pep503 x.2.1.name) = some x.2.2 ∧
    x.2.2 ≠ "" ∧ x.2.2 ≠ p

theorem buildPlan_inner_ok (latest_map : List (String × String))
    (gname : Option String) :
    ∀ (deps : List Dep) (plan : List (Option String × Dep × String)),
      (∀ x ∈ plan, PlanEntryOk latest_map x) →
      ∀ x ∈ deps.foldl
        (fun plan d =>
          if !pyTruthy d.pinned then plan
          else
            match latest_map.lookup (pep503 d.name) with
            | none => plan
            | some latest =>
              if latest ≠ "" ∧ some latest ≠ d.pinned then
                plan ++ [(gname, d, latest)]
              else plan)
        plan,
      PlanEntryOk latest_map x := by
  intro deps
  induction deps with
  | nil => intro plan hplan x hx; exact hplan x hx
  | cons d t ih =>
    intro plan hplan x hx
    rw [List.foldl_cons] at hx
    refine ih _ ?_ x hx
    intro y hy
    split at hy
    · exact hplan y hy
    · next hnp =>
      have hp : pyTruthy d.pinned = true := by
        revert hnp
        cases pyTruthy d.pinned <;> simp
      split at hy
      · exact hplan y hy
      · next latest hl =>
        split at hy
        · next hc =>
          rcases List.mem_append.mp hy with hy1 | hy2
          · exact hplan y hy1
          · have hey : y = (gname, d, latest) := List.mem_singleton.mp hy2
            subst hey
            obtain ⟨p, hpin⟩ : ∃ p, d.pinned = some p := by
              cases hd : d.pinned with
              | none => rw [hd] at hp; exact absurd hp (by simp [pyTruthy])
              | some p => exact ⟨p, rfl⟩
            have hpne : p ≠ "" := by
              rw [hpin] at hp
              simpa [pyTruthy] using hp
            refine ⟨p, hpin, hpne, hl, hc.1, ?_⟩
            intro he
            have he2 : latest = p := he
            exact hc.2 (by rw [he2, hpin])
        · exact hplan y hy

/-- C8: every entry of the Update Planner's plan carries a nonempty pinned
version, the latest version recorded for its normalized name in the oracle
result mapping, and that latest differs from the pin by string inequality;
hence the plan never contains an unpinned dependency nor one whose latest
equals its pin. -/
theorem buildPlan_only_pinned_and_newer
    (groups : List (Option String × List Dep)) (latest_map : List (String × String))
    (g : Option String) (d : Dep) (latest : String)
    (h : (g, d, latest) ∈ buildPlan groups latest_map) :
    ∃ p, d.pinned = some p ∧ p ≠ "" ∧
      latest_map.lookup (pep503 d.name) = some latest ∧
      latest ≠ "" ∧ latest ≠ p := by
  have main : ∀ (gs : List (Option String × List Dep))
      (plan : List (Option String × Dep × String)),
      (∀ x ∈ plan, PlanEntryOk latest_map x) →
      ∀ x ∈ gs.foldl
        (fun plan entry =>
          entry.2.foldl
            (fun plan d =>
              if !pyTruthy d.pinned then plan
              else
                match latest_map.lookup (pep503 d.name) with
                | none => plan
                | some latest =>
                  if latest ≠ "" ∧ some latest ≠ d.pinned then
                    plan ++ [(entry.1, d, latest)]
                  else plan)
            plan)
        plan,
      PlanEntryOk latest_map x := by
    intro gs
    induction gs with
    | nil => intro plan hplan x hx; exact hplan x hx
    | cons e t ih =>
      intro plan hplan x hx
      rw [List.foldl_cons] at hx
      exact ih _ (fun y hy => buildPlan_inner_ok latest_map e.1 e.2 plan hplan y hy) x hx
  have := main groups [] (fun x hx => absurd hx (List.not_mem_nil x)) (g, d, latest) h
  exact this

/-- C8 (witness): the planner applied to one group holding one pinned,
outdated dependency. -/
theorem buildPlan_only_pinned_and_newer_witness :
    ∃ p, (⟨"requests==2.28.0", "requests", "", some "2.28.0", none⟩ : Dep).pinned =
        some p ∧ p ≠ "" ∧
      List.lookup (pep503 "requests") [("requests", "2.31.0")] = some "2.31.0" ∧
      ("2.31.0" : String) ≠ "" ∧ ("2.31.0" : String) ≠ p :=
  buildPlan_only_pinned_and_newer
    [(none, [⟨"requests==2.28.0", "requests", "", some "2.28.0", none⟩])]
    [("requests", "2.31.0")] none
    ⟨"requests==2.28.0", "requests", "", some "2.28.0", none⟩ "2.31.0"
    (by decide)

/-! ### Lemmas about `gather_direct` -/

theorem gatherFold_preserve (b : Bool) :
    ∀ (entries : List (String × PyVal))
      (acc : List (Option String × List Dep) × List (String × Bool)) (g : String),
      g ∉ entries.map Prod.fst →
      (entries.foldl (gatherStep b) acc).1.lookup (some g) =
          acc.1.lookup (some g) ∧
        (entries.foldl (gatherStep b) acc).2.lookup g = acc.2.lookup g := by
  intro entries
  induction entries with
  | nil => intro acc g _; exact ⟨rfl, rfl⟩
  | cons e t ih =>
    intro acc g hg
    simp only [List.map_cons, List.mem_cons, not_or] at hg
    rw [List.foldl_cons]
    have hstep :
        (gatherStep b acc e).1.lookup (some g) = acc.1.lookup (some g) ∧
          (gatherStep b acc e).2.lookup g = acc.2.lookup g := by
      obtain ⟨k, v⟩ := e
      have hk : g ≠ k := hg.1
      cases v with
      | other => exact ⟨rfl, rfl⟩
      | list arr =>
        simp only [gatherStep]
        split
        · exact ⟨rfl, rfl⟩
        · constructor
          · exact lookup_pyDictSet_ne acc.1 (some k) (parseGroupList arr) (some g)
              (by simpa using hk)
          · exact lookup_pyDictSet_ne acc.2 k b g hk
    obtain ⟨h1, h2⟩ := ih (gatherStep b acc e) g hg.2
    exact ⟨h1.trans hstep.1, h2.trans hstep.2⟩

theorem gatherFold_write (b : Bool) :
    ∀ (entries : List (String × PyVal))
      (acc : List (Option String × List Dep) × List (String × Bool))
      (g : String) (arrG : List String),
      (entries.map Prod.fst).Nodup →
      (g, PyVal.list arrG) ∈ entries →
      parseGroupList arrG ≠ [] →
      (entries.foldl (gatherStep b) acc).1.lookup (some g) =
          some (parseGroupList arrG) ∧
        (entries.foldl (gatherStep b) acc).2.lookup g = some b := by
  intro entries
  induction entries with
  | nil => intro acc g arrG _ hmem _; exact absurd hmem (List.not_mem_nil _)
  | cons e t ih =>
    intro acc g arrG hnd hmem hne
    rw [List.map_cons, List.nodup_cons] at hnd
    rw [List.foldl_cons]
    rcases List.mem_cons.mp hmem with rfl | hmem2
    · have hgt : g ∉ t.map Prod.fst := hnd.1
      have hstep : (gatherStep b acc (g, PyVal.list arrG)).1.lookup (some g) =
          some (parseGroupList arrG) ∧
          (gatherStep b acc (g, PyVal.list arrG)).2.lookup g = some b := by
        simp only [gatherStep]
        rw [if_neg (by simpa [List.isEmpty_iff] using hne)]
        exact ⟨lookup_pyDictSet_self acc.1 (some g) (parseGroupList arrG),
          lookup_pyDictSet_self acc.2 g b⟩
      obtain ⟨h1, h2⟩ := gatherFold_preserve b t (gatherStep b acc (g, PyVal.list arrG)) g hgt
      exact ⟨h1.trans hstep.1, h2.trans hstep.2⟩
    · exact ih _ g arrG hnd.2 hmem2 hne

/-- C9 (amended): when a group name is a key of both
`project.optional-dependencies` and `dependency-groups` and the
`dependency-groups` value is a list at least one entry of which parses to a
record, the `dependency-groups` entry overwrites the optional one in the
returned groups dict and the group's optional flag ends up `False`, so the
optional group's records are lost and the group is treated as
grouped-style.  (When the `dependency-groups` value is not a list or parses
to no records, no overwrite happens.) -/
theorem gather_direct_shadowing
    (data : TomlData) (g : String) (arrO arrG : List String)
    (hO : (g, PyVal.list arrO) ∈ data.optional_dependencies)
    (hOne : parseGroupList arrO ≠ [])
    (hG : (g, PyVal.list arrG) ∈ data.dependency_groups)
    (hGnd : (data.dependency_groups.map Prod.fst).Nodup)
    (hGne : parseGroupList arrG ≠ []) :
    (gather_direct data).1.lookup (some g) = some (parseGroupList arrG) ∧
    (gather_direct data).2.lookup g = some false :=
  gatherFold_write false data.dependency_groups _ g arrG hGnd hG hGne

/-- C9 (witness): the amended statement on a concrete manifest where `dev`
is both an optional extra and a dependency group. -/
theorem gather_direct_shadowing_witness :
    (gather_direct ⟨[], [("dev", PyVal.list ["pytest==8.0.0"])],
        [("dev", PyVal.list ["black==23.7.0"])]⟩).1.lookup (some "dev") =
      some (parseGroupList ["black==23.7.0"]) ∧
    (gather_direct ⟨[], [("dev", PyVal.list ["pytest==8.0.0"])],
        [("dev", PyVal.list ["black==23.7.0"])]⟩).2.lookup "dev" = some false :=
  gather_direct_shadowing
    ⟨[], [("dev", PyVal.list ["pytest==8.0.0"])], [("dev", PyVal.list ["black==23.7.0"])]⟩
    "dev" ["pytest==8.0.0"] ["black==23.7.0"]
    (by decide) (by decide) (by decide) (by decide) (by decide)

/-- C9 (counterexample): occurrence of the group name as a key of
`dependency-groups` alone does not overwrite: if the dependency-group value
parses to no records (here a comment line), the optional entry and its
`True` flag survive, contradicting the claim as stated. -/
theorem gather_direct_no_overwrite_on_empty_parse :
    (gather_direct ⟨[], [("dev", PyVal.list ["pytest==8.0.0"])],
        [("dev", PyVal.list ["# nothing"])]⟩).1.lookup (some "dev") =
      some [⟨"pytest==8.0.0", "pytest", "", some "8.0.0", none⟩] ∧
    (gather_direct ⟨[], [("dev", PyVal.list ["pytest==8.0.0"])],
        [("dev", PyVal.list ["# nothing"])]⟩).2.lookup "dev" = some true := by
  refine ⟨by decide, by decide⟩

/-! ### Order facts for Python string comparison -/

theorem char_lt_iff_toNat {a b : Char} : a < b ↔ a.toNat < b.toNat := by
  rw [Char.lt_def, UInt32.lt_def, BitVec.lt_def]
  exact Iff.rfl

theorem pyStrLtChars_trichotomy :
    ∀ (as bs : List Char), pyStrLtChars as bs = false →
      pyStrLtChars bs as = false → as = bs := by
  intro as
  induction as with
  | nil =>
    intro bs h1 _
    cases bs with
    | nil => rfl
    | cons b t => exact absurd h1 (by simp [pyStrLtChars])
  | cons a t ih =>
    intro bs h1 h2
    cases bs with
    | nil => exact absurd h2 (by simp [pyStrLtChars])
    | cons b u =>
      simp only [pyStrLtChars] at h1 h2
      by_cases hab : a < b
      · rw [if_pos hab] at h1
        exact absurd h1 (by simp)
      · by_cases hba : b < a
        · rw [if_pos hba] at h2
          exact absurd h2 (by simp)
        · rw [if_neg hab, if_neg hba] at h1
          rw [if_neg hba, if_neg hab] at h2
          have hax : a.toNat = b.toNat := by
            have hx1 : ¬ a.toNat < b.toNat := fun h => hab (char_lt_iff_toNat.mpr h)
            have hx2 : ¬ b.toNat < a.toNat := fun h => hba (char_lt_iff_toNat.mpr h)
            omega
          have hone : a = b := char_toNat_inj hax
          subst hone
          rw [ih u h1 h2]

theorem pyStrLtChars_trans :
    ∀ (as bs cs : List Char), pyStrLtChars as bs = true →
      pyStrLtChars bs cs = true → pyStrLtChars as cs = true := by
  intro as
  induction as with
  | nil =>
    intro bs cs h1 h2
    cases bs with
    | nil => exact absurd h1 (by simp [pyStrLtChars])
    | cons b u =>
      cases cs with
      | nil => exact absurd h2 (by simp [pyStrLtChars])
      | cons c w => simp [pyStrLtChars]
  | cons a t ih =>
    intro bs cs h1 h2
    cases bs with
    | nil => exact absurd h1 (by simp [pyStrLtChars])
    | cons b u =>
      cases cs with
      | nil => exact absurd h2 (by simp [pyStrLtChars])
      | cons c w =>
        simp only [pyStrLtChars] at h1 h2 ⊢
        by_cases hab : a < b
        · by_cases hbc : b < c
          · rw [if_pos (Char.lt_trans hab hbc)]
          · by_cases hcb : c < b
            · rw [if_neg hbc, if_pos hcb] at h2
              exact absurd h2 (by simp)
            · have hbcn : b.toNat = c.toNat := by
                have hx1 : ¬ b.toNat < c.toNat := fun h => hbc (char_lt_iff_toNat.mpr h)
                have hx2 : ¬ c.toNat < b.toNat := fun h => hcb (char_lt_iff_toNat.mpr h)
                omega
              have hone : b = c := char_toNat_inj hbcn
              subst hone
              rw [if_pos hab]
        · by_cases hba : b < a
          · rw [if_neg hab, if_pos hba] at h1
            exact absurd h1 (by simp)
          · have habn : a.toNat = b.toNat := by
              have hx1 : ¬ a.toNat < b.toNat := fun h => hab (char_lt_iff_toNat.mpr h)
              have hx2 : ¬ b.toNat < a.toNat := fun h => hba (char_lt_iff_toNat.mpr h)
              omega
            have hone : a = b := char_toNat_inj habn
            subst hone
            rw [if_neg hab, if_neg hba] at h1
            by_cases hac : a < c
            · rw [if_pos hac]
            · by_cases hca : c < a
              · rw [if_neg hac, if_pos hca] at h2
                exact absurd h2 (by simp)
              · rw [if_neg hac, if_neg hca] at h2 ⊢
                exact ih u w h1 h2

theorem pyStrLtChars_irrefl : ∀ as, pyStrLtChars as as = false := by
  intro as
  induction as with
  | nil => rfl
  | cons a t ih =>
    simp only [pyStrLtChars]
    rw [if_neg (Char.lt_irrefl a), if_neg (Char.lt_irrefl a)]
    exact ih

theorem pyStrLe_total (a b : String) : pyStrLe a b = true ∨ pyStrLe b a = true := by
  unfold pyStrLe pyStrLt
  by_cases h1 : pyStrLtChars b.data a.data = true
  · right
    have h2 : pyStrLtChars a.data b.data = false := by
      by_contra hx
      rw [Bool.not_eq_false] at hx
      have hbb := pyStrLtChars_trans _ _ _ h1 hx
      rw [pyStrLtChars_irrefl] at hbb
      exact absurd hbb (by simp)
    rw [h2]
    rfl
  · left
    rw [Bool.not_eq_true] at h1
    rw [h1]
    rfl

theorem pyStrLe_trans {a b c : String} (h1 : pyStrLe a b = true)
    (h2 : pyStrLe b c = true) : pyStrLe a c = true := by
  unfold pyStrLe pyStrLt at h1 h2 ⊢
  rw [Bool.not_eq_true'] at h1 h2 ⊢
  by_contra hx
  rw [Bool.not_eq_false] at hx
  by_cases hbc : pyStrLtChars b.data c.data = true
  · have := pyStrLtChars_trans _ _ _ hbc hx
    rw [h1] at this
    exact absurd this (by simp)
  · rw [Bool.not_eq_true] at hbc
    have hde : b.data = c.data := pyStrLtChars_trichotomy _ _ hbc h2
    rw [← hde] at hx
    rw [h1] at hx
    exact absurd hx (by simp)

theorem mem_insertSorted (x y : String) :
    ∀ l, y ∈ insertSorted x l ↔ y = x ∨ y ∈ l := by
  intro l
  induction l with
  | nil => simp [insertSorted]
  | cons z t ih =>
    simp only [insertSorted]
    split
    · simp [List.mem_cons]
    · simp only [List.mem_cons, ih]
      tauto

theorem pairwise_insertSorted (x : String) :
    ∀ l, l.Pairwise (fun a b => pyStrLe a b = true) →
      (insertSorted x l).Pairwise (fun a b => pyStrLe a b = true) := by
  intro l
  induction l with
  | nil =>
    intro _
    simp [insertSorted]
  | cons z t ih =>
    intro hp
    rw [List.pairwise_cons] at hp
    simp only [insertSorted]
    split
    · next hle =>
      rw [List.pairwise_cons]
      refine ⟨?_, List.pairwise_cons.mpr hp⟩
      intro y hy
      rcases List.mem_cons.mp hy with rfl | hyt
      · exact hle
      · exact pyStrLe_trans hle (hp.1 y hyt)
    · next hnle =>
      rw [List.pairwise_cons]
      refine ⟨?_, ih hp.2⟩
      intro y hy
      rcases (mem_insertSorted x y t).mp hy with rfl | hyt
      · rcases pyStrLe_total y z with h | h
        · exact absurd h hnle
        · exact h
      · exact hp.1 y hyt

theorem pairwise_pySortedSet (l : List String) :
    (pySortedSet l).Pairwise (fun a b => pyStrLe a b = true) := by
  unfold pySortedSet
  generalize l.dedup = m
  induction m with
  | nil => simp
  | cons a t ih => exact pairwise_insertSorted a _ ih

/-! ### Lemmas about the ALIGNING phase -/

theorem stagingMemberOf_shape {cmd : List String} {m : String}
    (h : stagingMemberOf cmd = some m) :
    ∃ rest, cmd = "uv" :: "add" :: "--project" :: m :: "--frozen" :: rest := by
  unfold stagingMemberOf at h
  split at h
  · next m2 rest =>
    obtain rfl : m2 = m := by injection h
    exact ⟨rest, rfl⟩
  · exact absurd h (by simp)

theorem memberStagedCmds_label (fs : String → Option TomlData)
    (resolution : ConflictResolution) (m : String) (cs : List StagedCmd)
    (h : memberStagedCmds fs resolution m = some cs) :
    ∀ sc ∈ cs, sc.member = m ∧ stagingMemberOf sc.cmd = some m := by
  unfold memberStagedCmds at h
  cases hs : stageSpecsForMember fs resolution m with
  | none => rw [hs] at h; exact absurd h (by simp)
  | some specs =>
    rw [hs] at h
    obtain ⟨mainSpecs, optionalSpecs, groupSpecs⟩ := specs
    have hcs : cs =
        (if mainSpecs.isEmpty then []
         else [StagedCmd.mk "main" m
           (["uv", "add", "--project", m, "--frozen"] ++ mainSpecs)]) ++
        optionalSpecs.map (fun gs =>
          StagedCmd.mk "optional" m
            (["uv", "add", "--project", m, "--frozen", "--optional", gs.1] ++ gs.2)) ++
        groupSpecs.map (fun gs =>
          StagedCmd.mk "group" m
            (["uv", "add", "--project", m, "--frozen", "--group", gs.1] ++ gs.2)) := by
      injection h with h2
      rw [← h2]
    subst hcs
    intro sc hsc
    rcases List.mem_append.mp hsc with hsc1 | hsc3
    · rcases List.mem_append.mp hsc1 with hsc0 | hsc2
      · split at hsc0
        · exact absurd hsc0 (List.not_mem_nil sc)
        · obtain rfl : sc = StagedCmd.mk "main" m
              (["uv", "add", "--project", m, "--frozen"] ++ mainSpecs) :=
            List.mem_singleton.mp hsc0
          exact ⟨rfl, rfl⟩
      · obtain ⟨gs, _, rfl⟩ := List.mem_map.mp hsc2
        exact ⟨rfl, rfl⟩
    · obtain ⟨gs, _, rfl⟩ := List.mem_map.mp hsc3
      exact ⟨rfl, rfl⟩

theorem stageSpecs_fold_total (fs : String → Option TomlData)
    (resolution : ConflictResolution) (member : String) :
    ∀ (conflicts : List WorkspaceConflict),
      (∀ c ∈ conflicts,
        (resolution.target_versions.lookup c.package_name).isSome = true) →
      ∀ (acc : List String × List (String × List String) × List (String × List String)),
      ∃ r, conflicts.foldlM
        (fun (acc : List String × List (String × List String) ×
            List (String × List String)) conflict =>
          if (conflict.conflicts.lookup member).isSome then
            match resolution.target_versions.lookup conflict.package_name with
            | none => none
            | some target_version =>
              let spec := conflict.package_name ++ "==" ++ target_version
              match find_package_location_in_member fs member conflict.package_name with
              | none => some (acc.1 ++ [spec], acc.2.1, acc.2.2)
              | some location =>
                if location.startsWith "group:" then
                  some (acc.1, acc.2.1, pyDictAppend acc.2.2 (location.drop 6) spec)
                else
                  some (acc.1, pyDictAppend acc.2.1 location spec, acc.2.2)
          else some acc)
        acc = some r := by
  intro conflicts
  induction conflicts with
  | nil => intro _ acc; exact ⟨acc, rfl⟩
  | cons c t ih =>
    intro hkeys acc
    rw [List.foldlM_cons]
    have hstep : ∃ acc2, (if (c.conflicts.lookup member).isSome then
        match resolution.target_versions.lookup c.package_name with
        | none => none
        | some target_version =>
          let spec := c.package_name ++ "==" ++ target_version
          match find_package_location_in_member fs member c.package_name with
          | none => some (acc.1 ++ [spec], acc.2.1, acc.2.2)
          | some location =>
            if location.startsWith "group:" then
              some (acc.1, acc.2.1, pyDictAppend acc.2.2 (location.drop 6) spec)
            else
              some (acc.1, pyDictAppend acc.2.1 location spec, acc.2.2)
        else some acc) = some acc2 := by
      rw [← Option.isSome_iff_exists]
      split
      · split
        · next heq =>
          have hx := hkeys c (List.mem_cons_self c t)
          rw [heq] at hx
          exact absurd hx (by simp)
        · split
          · rfl
          · split
            · rfl
            · rfl
      · rfl
    obtain ⟨acc2, hacc2⟩ := hstep
    rw [hacc2]
    have hbind : (some acc2 >>= fun b =>
        t.foldlM (fun acc conflict =>
          if (conflict.conflicts.lookup member).isSome then
            match resolution.target_versions.lookup conflict.package_name with
            | none => none
            | some target_version =>
              let spec := conflict.package_name ++ "==" ++ target_version
              match find_package_location_in_member fs member conflict.package_name with
              | none => some (acc.1 ++ [spec], acc.2.1, acc.2.2)
              | some location =>
                if location.startsWith "group:" then
                  some (acc.1, acc.2.1, pyDictAppend acc.2.2 (location.drop 6) spec)
                else
                  some (acc.1, pyDictAppend acc.2.1 location spec, acc.2.2)
          else some acc) b) =
      t.foldlM (fun acc conflict =>
          if (conflict.conflicts.lookup member).isSome then
            match resolution.target_versions.lookup conflict.package_name with
            | none => none
            | some target_version =>
              let spec := conflict.package_name ++ "==" ++ target_version
              match find_package_location_in_member fs member conflict.package_name with
              | none => some (acc.1 ++ [spec], acc.2.1, acc.2.2)
              | some location =>
                if location.startsWith "group:" then
                  some (acc.1, acc.2.1, pyDictAppend acc.2.2 (location.drop 6) spec)
                else
                  some (acc.1, pyDictAppend acc.2.1 location spec, acc.2.2)
          else some acc) acc2 := rfl
    rw [hbind]
    exact ih (fun x hx => hkeys x (List.mem_cons_of_mem c hx)) acc2

theorem memberStagedCmds_total (fs : String → Option TomlData)
    (resolution : ConflictResolution) (m : String)
    (hkeys : ∀ c ∈ resolution.conflicts,
      (resolution.target_versions.lookup c.package_name).isSome = true) :
    ∃ cs, memberStagedCmds fs resolution m = some cs := by
  obtain ⟨r, hr⟩ :=
    stageSpecs_fold_total fs resolution m resolution.conflicts hkeys ([], [], [])
  unfold memberStagedCmds stageSpecsForMember
  rw [hr]
  exact ⟨_, rfl⟩

theorem pairwise_map_const (R : String → String → Prop) (m : String) (hR : R m m) :
    ∀ (l : List StagedCmd), (∀ sc ∈ l, sc.member = m) →
      (l.map StagedCmd.member).Pairwise R := by
  intro l
  induction l with
  | nil => intro _; simp
  | cons sc t ih =>
    intro h
    rw [List.map_cons, List.pairwise_cons]
    constructor
    · intro y hy
      obtain ⟨sc2, hsc2, rfl⟩ := List.mem_map.mp hy
      rw [h sc (List.mem_cons_self sc t), h sc2 (List.mem_cons_of_mem sc hsc2)]
      exact hR
    · exact ih (fun x hx => h x (List.mem_cons_of_mem sc hx))

theorem filterMap_staging_labels :
    ∀ (l : List StagedCmd),
      (∀ sc ∈ l, stagingMemberOf sc.cmd = some sc.member) →
      (l.map (fun sc => sc.cmd)).filterMap stagingMemberOf =
        l.map StagedCmd.member := by
  intro l
  induction l with
  | nil => intro _; rfl
  | cons sc t ih =>
    intro h
    rw [List.map_cons, List.filterMap_cons, h sc (List.mem_cons_self sc t),
      List.map_cons, ih (fun x hx => h x (List.mem_cons_of_mem sc hx))]

theorem staged_fold_spec (fs : String → Option TomlData)
    (resolution : ConflictResolution) (R : String → String → Prop)
    (hR : ∀ m, R m m) :
    ∀ (ms : List String) (acc staged : List StagedCmd),
      ms.Pairwise R →
      ms.foldlM (fun acc m =>
        (memberStagedCmds fs resolution m).map (fun cs => acc ++ cs)) acc =
        some staged →
      ∃ extra, staged = acc ++ extra ∧
        (∀ sc ∈ extra, sc.member ∈ ms ∧ stagingMemberOf sc.cmd = some sc.member) ∧
        (extra.map StagedCmd.member).Pairwise R := by
  intro ms
  induction ms with
  | nil =>
    intro acc staged _ h
    obtain rfl : acc = staged := by injection h
    exact ⟨[], by rw [List.append_nil], fun sc hsc => absurd hsc (List.not_mem_nil sc),
      by simp⟩
  | cons m ms ih =>
    intro acc staged hpw h
    rw [List.foldlM_cons] at h
    cases hm : memberStagedCmds fs resolution m with
    | none =>
      rw [hm] at h
      exact absurd h (by simp)
    | some cs =>
      rw [hm] at h
      simp only [Option.map_some', Option.some_bind] at h
      rw [List.pairwise_cons] at hpw
      obtain ⟨extra2, hstruct, hprops, hpair⟩ := ih (acc ++ cs) staged hpw.2 h
      have hlbl := memberStagedCmds_label fs resolution m cs hm
      refine ⟨cs ++ extra2, by rw [hstruct, List.append_assoc], ?_, ?_⟩
      · intro sc hsc
        rcases List.mem_append.mp hsc with hin | hin
        · refine ⟨by rw [(hlbl sc hin).1]; exact List.mem_cons_self m ms, ?_⟩
          rw [(hlbl sc hin).1]
          exact (hlbl sc hin).2
        · exact ⟨List.mem_cons_of_mem m (hprops sc hin).1, (hprops sc hin).2⟩
      · rw [List.map_append]
        rw [List.pairwise_append]
        refine ⟨pairwise_map_const R m (hR m) cs (fun sc hsc => (hlbl sc hsc).1),
          hpair, ?_⟩
        intro x hx y hy
        obtain ⟨scx, hscx, rfl⟩ := List.mem_map.mp hx
        obtain ⟨scy, hscy, rfl⟩ := List.mem_map.mp hy
        rw [(hlbl scx hscx).1]
        exact hpw.1 scy.member ((hprops scy hscy).1)

theorem execStaged_cons (runner : List String → RunRes) (sc : StagedCmd)
    (rest : List StagedCmd) :
    execStaged runner (sc :: rest) =
      if (runner sc.cmd).returncode ≠ 0 then
        ([(sc.cmd, runner sc.cmd)],
         ["Failed to stage " ++ sc.kind ++ " deps for member '" ++ sc.member ++ "'"] ++
           (if (runner sc.cmd).stderr ≠ "" then [(runner sc.cmd).stderr] else []),
         false)
      else
        ((sc.cmd, runner sc.cmd) :: (execStaged runner rest).1,
         (execStaged runner rest).2.1, (execStaged runner rest).2.2) := rfl

theorem execStaged_mem (runner : List String → RunRes) :
    ∀ (cmds : List StagedCmd), ∀ e ∈ (execStaged runner cmds).1,
      ∃ sc, sc ∈ cmds ∧ e = (sc.cmd, runner sc.cmd) := by
  intro cmds
  induction cmds with
  | nil => intro e he; exact absurd he (List.not_mem_nil e)
  | cons sc rest ih =>
    intro e he
    rw [execStaged_cons] at he
    by_cases hrc : (runner sc.cmd).returncode ≠ 0
    · rw [if_pos hrc] at he
      obtain rfl := List.mem_singleton.mp he
      exact ⟨sc, List.mem_cons_self sc rest, rfl⟩
    · rw [if_neg hrc] at he
      rcases List.mem_cons.mp he with rfl | htail
      · exact ⟨sc, List.mem_cons_self sc rest, rfl⟩
      · obtain ⟨sc2, hsc2, rfl⟩ := ih e htail
        exact ⟨sc2, List.mem_cons_of_mem sc hsc2, rfl⟩

theorem execStaged_nonlast_ok (runner : List String → RunRes) :
    ∀ (cmds : List StagedCmd), ∀ e ∈ (execStaged runner cmds).1.dropLast,
      e.2.returncode = 0 := by
  intro cmds
  induction cmds with
  | nil => intro e he; exact absurd he (List.not_mem_nil e)
  | cons sc rest ih =>
    intro e he
    rw [execStaged_cons] at he
    by_cases hrc : (runner sc.cmd).returncode ≠ 0
    · rw [if_pos hrc] at he
      exact absurd he (List.not_mem_nil e)
    · rw [if_neg hrc] at he
      cases ht : (execStaged runner rest).1 with
      | nil =>
        rw [ht] at he
        exact absurd he (List.not_mem_nil e)
      | cons e0 ts =>
        rw [ht, List.dropLast_cons₂] at he
        rcases List.mem_cons.mp he with rfl | htail
        · simpa using hrc
        · refine ih e ?_
          rw [ht]
          exact htail

theorem execStaged_ok_iff (runner : List String → RunRes) :
    ∀ (cmds : List StagedCmd),
      (execStaged runner cmds).2.2 = true ↔
        ∀ e ∈ (execStaged runner cmds).1, e.2.returncode = 0 := by
  intro cmds
  induction cmds with
  | nil => simp [execStaged]
  | cons sc rest ih =>
    rw [execStaged_cons]
    by_cases hrc : (runner sc.cmd).returncode ≠ 0
    · rw [if_pos hrc]
      constructor
      · intro hx; exact absurd hx (by simp)
      · intro hall
        have := hall (sc.cmd, runner sc.cmd) (List.mem_singleton.mpr rfl)
        exact absurd this hrc
    · rw [if_neg hrc]
      rw [not_not] at hrc
      constructor
      · intro hok e he
        rcases List.mem_cons.mp he with rfl | htail
        · exact hrc
        · exact (ih.mp hok) e htail
      · intro hall
        exact ih.mpr (fun e he => hall e (List.mem_cons_of_mem _ he))

theorem execStaged_fail_msg (runner : List String → RunRes) :
    ∀ (cmds : List StagedCmd), ∀ e ∈ (execStaged runner cmds).1,
      e.2.returncode ≠ 0 →
      ∃ sc, sc ∈ cmds ∧ e.1 = sc.cmd ∧
        ("Failed to stage " ++ sc.kind ++ " deps for member '" ++ sc.member ++ "'") ∈
          (execStaged runner cmds).2.1 := by
  intro cmds
  induction cmds with
  | nil => intro e he; exact absurd he (List.not_mem_nil e)
  | cons sc rest ih =>
    intro e he hrc0
    rw [execStaged_cons] at he ⊢
    by_cases hrc : (runner sc.cmd).returncode ≠ 0
    · rw [if_pos hrc] at he ⊢
      obtain rfl := List.mem_singleton.mp he
      exact ⟨sc, List.mem_cons_self sc rest, rfl, List.mem_append_left _
        (List.mem_singleton.mpr rfl)⟩
    · rw [if_neg hrc] at he ⊢
      rcases List.mem_cons.mp he with rfl | htail
      · rw [not_not] at hrc
        exact absurd hrc hrc0
      · obtain ⟨sc2, hsc2, heq, hmsg⟩ := ih e htail hrc0
        exact ⟨sc2, List.mem_cons_of_mem sc hsc2, heq, hmsg⟩

theorem pyStrLe_refl (m : String) : pyStrLe m m = true := by
  unfold pyStrLe pyStrLt
  rw [pyStrLtChars_irrefl]
  rfl

theorem staged_fold_total (fs : String → Option TomlData)
    (resolution : ConflictResolution)
    (h : ∀ m, ∃ cs, memberStagedCmds fs resolution m = some cs) :
    ∀ (ms : List String) (acc : List StagedCmd),
      ∃ staged, ms.foldlM (fun acc m =>
        (memberStagedCmds fs resolution m).map (fun cs => acc ++ cs)) acc =
        some staged := by
  intro ms
  induction ms with
  | nil => intro acc; exact ⟨acc, rfl⟩
  | cons m t ih =>
    intro acc
    obtain ⟨cs, hcs⟩ := h m
    rw [List.foldlM_cons, hcs]
    simp only [Option.map_some', Option.some_bind]
    exact ih (acc ++ cs)

theorem execStaged_trace_sublist (runner : List String → RunRes) :
    ∀ (cmds : List StagedCmd), ∃ pre, List.Sublist pre cmds ∧
      (execStaged runner cmds).1 = pre.map (fun sc => (sc.cmd, runner sc.cmd)) := by
  intro cmds
  induction cmds with
  | nil => exact ⟨[], List.Sublist.refl [], rfl⟩
  | cons sc rest ih =>
    by_cases hrc : (runner sc.cmd).returncode ≠ 0
    · refine ⟨[sc], ?_, ?_⟩
      · exact List.Sublist.cons₂ sc (List.nil_sublist rest)
      · rw [execStaged_cons, if_pos hrc]
        rfl
    · obtain ⟨pre, hsub, heq⟩ := ih
      refine ⟨sc :: pre, List.Sublist.cons₂ sc hsub, ?_⟩
      rw [execStaged_cons, if_neg hrc, List.map_cons, heq]

theorem align_unfold (fs : String → Option TomlData)
    (runner : List String → RunRes) (resolution : ConflictResolution)
    (sync : Bool) (indexes : List String) (allow_pre : Bool)
    (staged : List StagedCmd)
    (hstaged : (pySortedSet resolution.affected_members).foldlM
      (fun acc m => (memberStagedCmds fs resolution m).map (fun cs => acc ++ cs))
      [] = some staged) :
    align_workspace_members fs runner resolution sync indexes allow_pre =
      (if !(execStaged runner staged).2.2 then
        some (false, (execStaged runner staged).1, (execStaged runner staged).2.1)
      else if (runner ["uv", "lock"]).returncode ≠ 0 then
        some (false,
          (execStaged runner staged).1 ++ [(["uv", "lock"], runner ["uv", "lock"])],
          (execStaged runner staged).2.1 ++
            ["uv lock failed after alignment. Files have been modified."] ++
            (if (runner ["uv", "lock"]).stderr ≠ ""
             then [(runner ["uv", "lock"]).stderr] else []))
      else if sync then
        (if (runner ["uv", "sync"]).returncode ≠ 0 then
          some (false,
            (execStaged runner staged).1 ++
              [(["uv", "lock"], runner ["uv", "lock"])] ++
              [(["uv", "sync"], runner ["uv", "sync"])],
            (execStaged runner staged).2.1 ++
              ["uv sync failed but lock succeeded. Environment may be inconsistent."] ++
              (if (runner ["uv", "sync"]).stderr ≠ ""
               then [(runner ["uv", "sync"]).stderr] else []))
        else
          some (true,
            (execStaged runner staged).1 ++
              [(["uv", "lock"], runner ["uv", "lock"])] ++
              [(["uv", "sync"], runner ["uv", "sync"])],
            (execStaged runner staged).2.1))
      else
        some (true,
          (execStaged runner staged).1 ++ [(["uv", "lock"], runner ["uv", "lock"])],
          (execStaged runner staged).2.1)) := by
  unfold align_workspace_members
  dsimp only
  rw [hstaged]

/-- C5: under the documented invariant that every conflicting package has a
target version, the ALIGNING phase runs to a definite result in which (a)
the staging calls appear in sorted member-name order, (b) every issued
command is either a one-member `--frozen` staging call for an affected
member, or `uv lock`, or `uv sync`, (c) every command before the last one
succeeded — so a single failed call aborts the phase with no further calls —
(d) the phase succeeds exactly when every issued command succeeded, and (e)
a failed staging call leaves a message naming the failing member and site
kind. -/
theorem align_workspace_members_spec
    (fs : String → Option TomlData) (runner : List String → RunRes)
    (resolution : ConflictResolution) (sync : Bool)
    (indexes : List String) (allow_pre : Bool)
    (hkeys : ∀ c ∈ resolution.conflicts,
      (resolution.target_versions.lookup c.package_name).isSome = true) :
    ∃ ok trace lg,
      align_workspace_members fs runner resolution sync indexes allow_pre =
        some (ok, trace, lg) ∧
      ((trace.map Prod.fst).filterMap stagingMemberOf).Pairwise
        (fun a b => pyStrLe a b = true) ∧
      (∀ e ∈ trace,
        (∃ m rest, stagingMemberOf e.1 = some m ∧
          m ∈ pySortedSet resolution.affected_members ∧
          e.1 = "uv" :: "add" :: "--project" :: m :: "--frozen" :: rest) ∨
        e.1 = ["uv", "lock"] ∨ e.1 = ["uv", "sync"]) ∧
      (∀ e ∈ trace.dropLast, e.2.returncode = 0) ∧
      (ok = true ↔ ∀ e ∈ trace, e.2.returncode = 0) ∧
      (∀ e ∈ trace, ∀ m, stagingMemberOf e.1 = some m → e.2.returncode ≠ 0 →
        ∃ kind,
          ("Failed to stage " ++ kind ++ " deps for member '" ++ m ++ "'") ∈ lg) := by
  obtain ⟨staged, hstaged⟩ := staged_fold_total fs resolution
    (fun m => memberStagedCmds_total fs resolution m hkeys)
    (pySortedSet resolution.affected_members) []
  obtain ⟨extra, hex0, hprops, hpair⟩ :=
    staged_fold_spec fs resolution (fun a b => pyStrLe a b = true) pyStrLe_refl
      (pySortedSet resolution.affected_members) [] staged
      (pairwise_pySortedSet resolution.affected_members) hstaged
  rw [List.nil_append] at hex0
  subst hex0
  obtain ⟨pre, hpre_sub, hpre_eq⟩ := execStaged_trace_sublist runner staged
  have hA1t : (((execStaged runner staged).1.map Prod.fst).filterMap
      stagingMemberOf).Pairwise (fun a b => pyStrLe a b = true) := by
    rw [hpre_eq, List.map_map]
    have hfm : (pre.map (fun sc => sc.cmd)).filterMap stagingMemberOf =
        pre.map StagedCmd.member :=
      filterMap_staging_labels pre (fun sc hsc => (hprops sc (hpre_sub.subset hsc)).2)
    show ((pre.map (fun sc => sc.cmd)).filterMap stagingMemberOf).Pairwise _
    rw [hfm]
    exact List.Pairwise.sublist (hpre_sub.map StagedCmd.member) hpair
  have hA2t : ∀ e ∈ (execStaged runner staged).1,
      ∃ m rest, stagingMemberOf e.1 = some m ∧
        m ∈ pySortedSet resolution.affected_members ∧
        e.1 = "uv" :: "add" :: "--project" :: m :: "--frozen" :: rest := by
    intro e he
    obtain ⟨sc, hsc, rfl⟩ := execStaged_mem runner staged e he
    obtain ⟨hmem, hstg⟩ := hprops sc hsc
    obtain ⟨rest, hshape⟩ := stagingMemberOf_shape hstg
    exact ⟨sc.member, rest, hstg, hmem, hshape⟩
  have hA5t : ∀ e ∈ (execStaged runner staged).1, ∀ m,
      stagingMemberOf e.1 = some m → e.2.returncode ≠ 0 →
      ∃ kind, ("Failed to stage " ++ kind ++ " deps for member '" ++ m ++ "'") ∈
        (execStaged runner staged).2.1 := by
    intro e he m hm hrc
    obtain ⟨sc, hsc, heq, hmsg⟩ := execStaged_fail_msg runner staged e he hrc
    have hm2 : stagingMemberOf sc.cmd = some m := by rw [← heq]; exact hm
    rw [(hprops sc hsc).2] at hm2
    injection hm2 with hm3
    subst hm3
    exact ⟨sc.kind, hmsg⟩
  have hokiff := execStaged_ok_iff runner staged
  have hnl := execStaged_nonlast_ok runner staged
  have halign := align_unfold fs runner resolution sync indexes allow_pre staged hstaged
  rcases her : execStaged runner staged with ⟨trace0, lg0, ok0⟩
  rw [her] at hA1t hA2t hA5t hokiff hnl halign
  dsimp only at hA1t hA2t hA5t hokiff hnl halign
  cases ok0 with
  | false =>
    refine ⟨false, trace0, lg0, ?_, hA1t, fun e he => Or.inl (hA2t e he), hnl,
      ?_, hA5t⟩
    · exact halign.trans rfl
    · exact hokiff
  | true =>
    have hall : ∀ e ∈ trace0, e.2.returncode = 0 := hokiff.mp rfl
    rw [if_neg (by simp)] at halign
    by_cases hlock : (runner ["uv", "lock"]).returncode ≠ 0
    · rw [if_pos hlock] at halign
      refine ⟨false, trace0 ++ [(["uv", "lock"], runner ["uv", "lock"])], _,
        halign, ?_, ?_, ?_, ?_, ?_⟩
      · rw [List.map_append, List.filterMap_append]
        have h2 : (([(["uv", "lock"], runner ["uv", "lock"])]).map
            Prod.fst).filterMap stagingMemberOf = [] := rfl
        rw [h2, List.append_nil]
        exact hA1t
      · intro e he
        rcases List.mem_append.mp he with h0 | h1
        · exact Or.inl (hA2t e h0)
        · obtain rfl := List.mem_singleton.mp h1
          exact Or.inr (Or.inl rfl)
      · intro e he
        rw [List.dropLast_concat] at he
        exact hall e he
      · constructor
        · intro hx; exact absurd hx (by simp)
        · intro hall2
          have := hall2 (["uv", "lock"], runner ["uv", "lock"])
            (List.mem_append_right _ (List.mem_singleton.mpr rfl))
          exact absurd this hlock
      · intro e he m hm hrc
        rcases List.mem_append.mp he with h0 | h1
        · exact absurd (hall e h0) hrc
        · obtain rfl := List.mem_singleton.mp h1
          exact absurd hm (by simp [stagingMemberOf])
    · rw [if_neg hlock] at halign
      rw [not_not] at hlock
      by_cases hsync : sync
      · rw [if_pos hsync] at halign
        by_cases hsrc : (runner ["uv", "sync"]).returncode ≠ 0
        · rw [if_pos hsrc] at halign
          refine ⟨false,
            trace0 ++ [(["uv", "lock"], runner ["uv", "lock"])] ++
              [(["uv", "sync"], runner ["uv", "sync"])], _,
            halign, ?_, ?_, ?_, ?_, ?_⟩
          · rw [List.map_append, List.filterMap_append, List.map_append,
              List.filterMap_append]
            have h2 : (([(["uv", "lock"], runner ["uv", "lock"])]).map
                Prod.fst).filterMap stagingMemberOf = [] := rfl
            have h3 : (([(["uv", "sync"], runner ["uv", "sync"])]).map
                Prod.fst).filterMap stagingMemberOf = [] := rfl
            rw [h2, h3, List.append_nil, List.append_nil]
            exact hA1t
          · intro e he
            rcases List.mem_append.mp he with h01 | h2
            · rcases List.mem_append.mp h01 with h0 | h1
              · exact Or.inl (hA2t e h0)
              · obtain rfl := List.mem_singleton.mp h1
                exact Or.inr (Or.inl rfl)
            · obtain rfl := List.mem_singleton.mp h2
              exact Or.inr (Or.inr rfl)
          · intro e he
            rw [List.dropLast_concat] at he
            rcases List.mem_append.mp he with h0 | h1
            · exact hall e h0
            · obtain rfl := List.mem_singleton.mp h1
              exact hlock
          · constructor
            · intro hx; exact absurd hx (by simp)
            · intro hall2
              have := hall2 (["uv", "sync"], runner ["uv", "sync"])
                (List.mem_append_right _ (List.mem_singleton.mpr rfl))
              exact absurd this hsrc
          · intro e he m hm hrc
            rcases List.mem_append.mp he with h01 | h2
            · rcases List.mem_append.mp h01 with h0 | h1
              · exact absurd (hall e h0) hrc
              · obtain rfl := List.mem_singleton.mp h1
                exact absurd hm (by simp [stagingMemberOf])
            · obtain rfl := List.mem_singleton.mp h2
              exact absurd hm (by simp [stagingMemberOf])
        · rw [if_neg hsrc] at halign
          rw [not_not] at hsrc
          refine ⟨true,
            trace0 ++ [(["uv", "lock"], runner ["uv", "lock"])] ++
              [(["uv", "sync"], runner ["uv", "sync"])], _,
            halign, ?_, ?_, ?_, ?_, ?_⟩
          · rw [List.map_append, List.filterMap_append, List.map_append,
              List.filterMap_append]
            have h2 : (([(["uv", "lock"], runner ["uv", "lock"])]).map
                Prod.fst).filterMap stagingMemberOf = [] := rfl
            have h3 : (([(["uv", "sync"], runner ["uv", "sync"])]).map
                Prod.fst).filterMap stagingMemberOf = [] := rfl
            rw [h2, h3, List.append_nil, List.append_nil]
            exact hA1t
          · intro e he
            rcases List.mem_append.mp he with h01 | h2
            · rcases List.mem_append.mp h01 with h0 | h1
              · exact Or.inl (hA2t e h0)
              · obtain rfl := List.mem_singleton.mp h1
                exact Or.inr (Or.inl rfl)
            · obtain rfl := List.mem_singleton.mp h2
              exact Or.inr (Or.inr rfl)
          · intro e he
            rw [List.dropLast_concat] at he
            rcases List.mem_append.mp he with h0 | h1
            · exact hall e h0
            · obtain rfl := List.mem_singleton.mp h1
              exact hlock
          · constructor
            · intro _ e he
              rcases List.mem_append.mp he with h01 | h2
              · rcases List.mem_append.mp h01 with h0 | h1
                · exact hall e h0
                · obtain rfl := List.mem_singleton.mp h1
                  exact hlock
              · obtain rfl := List.mem_singleton.mp h2
                exact hsrc
            · intro _; rfl
          · intro e he m hm hrc
            rcases List.mem_append.mp he with h01 | h2
            · rcases List.mem_append.mp h01 with h0 | h1
              · exact absurd (hall e h0) hrc
              · obtain rfl := List.mem_singleton.mp h1
                exact absurd hm (by simp [stagingMemberOf])
            · obtain rfl := List.mem_singleton.mp h2
              exact absurd hm (by simp [stagingMemberOf])
      · rw [if_neg hsync] at halign
        refine ⟨true, trace0 ++ [(["uv", "lock"], runner ["uv", "lock"])], _,
          halign, ?_, ?_, ?_, ?_, ?_⟩
        · rw [List.map_append, List.filterMap_append]
          have h2 : (([(["uv", "lock"], runner ["uv", "lock"])]).map
              Prod.fst).filterMap stagingMemberOf = [] := rfl
          rw [h2, List.append_nil]
          exact hA1t
        · intro e he
          rcases List.mem_append.mp he with h0 | h1
          · exact Or.inl (hA2t e h0)
          · obtain rfl := List.mem_singleton.mp h1
            exact Or.inr (Or.inl rfl)
        · intro e he
          rw [List.dropLast_concat] at he
          exact hall e he
        · constructor
          · intro _ e he
            rcases List.mem_append.mp he with h0 | h1
            · exact hall e h0
            · obtain rfl := List.mem_singleton.mp h1
              exact hlock
          · intro _; rfl
        · intro e he m hm hrc
          rcases List.mem_append.mp he with h0 | h1
          · exact absurd (hall e h0) hrc
          · obtain rfl := List.mem_singleton.mp h1
            exact absurd hm (by simp [stagingMemberOf])

theorem ne_of_true_false {α : Type} {p : α → Bool} {c d : α}
    (hc : p c = true) (hd : p d = false) : c ≠ d := by
  intro he
  rw [he, hd] at hc
  exact Bool.noConfusion hc

theorem isAlnumA_not_ws {c : Char} (h : isAlnumA c = true) :
    pyIsSpace c = false := by
  unfold pyIsSpace
  have h1 : c ≠ ' ' := ne_of_true_false h (by decide)
  have h2 : c ≠ '\t' := ne_of_true_false h (by decide)
  have h3 : c ≠ '\n' := ne_of_true_false h (by decide)
  have h4 : c ≠ '\r' := ne_of_true_false h (by decide)
  have h5 : c ≠ '\x0b' := ne_of_true_false h (by decide)
  have h6 : c ≠ '\x0c' := ne_of_true_false h (by decide)
  simp [h1, h2, h3, h4, h5, h6]

theorem isNameChar_not_ws {c : Char} (h : isNameChar c = true) :
    pyIsSpace c = false := by
  unfold pyIsSpace
  have h1 : c ≠ ' ' := ne_of_true_false h (by decide)
  have h2 : c ≠ '\t' := ne_of_true_false h (by decide)
  have h3 : c ≠ '\n' := ne_of_true_false h (by decide)
  have h4 : c ≠ '\r' := ne_of_true_false h (by decide)
  have h5 : c ≠ '\x0b' := ne_of_true_false h (by decide)
  have h6 : c ≠ '\x0c' := ne_of_true_false h (by decide)
  simp [h1, h2, h3, h4, h5, h6]

theorem isVerChar_props {c : Char} (h : isVerChar c = true) :
    c ≠ ';' ∧ pyIsSpace c = false := by
  unfold isVerChar at h
  simp only [Bool.not_eq_true', Bool.or_eq_false_iff,
    decide_eq_false_iff_not] at h
  exact h

theorem takeWhile_append_all {α : Type} (p : α → Bool) :
    ∀ (l1 l2 : List α), (∀ a ∈ l1, p a = true) →
      (l1 ++ l2).takeWhile p = l1 ++ l2.takeWhile p := by
  intro l1
  induction l1 with
  | nil => intro l2 _; rfl
  | cons a t ih =>
    intro l2 h
    rw [List.cons_append, List.takeWhile_cons, h a (List.mem_cons_self a t),
      List.cons_append, ih l2 (fun b hb => h b (List.mem_cons_of_mem a hb)),
      if_pos rfl]

theorem dropWhile_append_all {α : Type} (p : α → Bool) :
    ∀ (l1 l2 : List α), (∀ a ∈ l1, p a = true) →
      (l1 ++ l2).dropWhile p = l2.dropWhile p := by
  intro l1
  induction l1 with
  | nil => intro l2 _; rfl
  | cons a t ih =>
    intro l2 h
    rw [List.cons_append, List.dropWhile_cons, h a (List.mem_cons_self a t),
      if_pos rfl]
    exact ih l2 (fun b hb => h b (List.mem_cons_of_mem a hb))

theorem takeWhile_head_false {α : Type} (p : α → Bool) (l : List α)
    (h : ∀ c, l.head? = some c → p c = false) : l.takeWhile p = [] := by
  cases l with
  | nil => rfl
  | cons a t => rw [List.takeWhile_cons, h a rfl, if_neg (by simp)]

theorem dropWhile_head_false {α : Type} (p : α → Bool) (l : List α)
    (h : ∀ c, l.head? = some c → p c = false) : l.dropWhile p = l := by
  cases l with
  | nil => rfl
  | cons a t => rw [List.dropWhile_cons, h a rfl, if_neg (by simp)]

theorem takeWhile_all {α : Type} (p : α → Bool) :
    ∀ (l : List α), (∀ a ∈ l, p a = true) → l.takeWhile p = l := by
  intro l
  induction l with
  | nil => intro _; rfl
  | cons a t ih =>
    intro h
    rw [List.takeWhile_cons, h a (List.mem_cons_self a t),
      ih (fun b hb => h b (List.mem_cons_of_mem a hb)), if_pos rfl]

theorem dropWhile_all_nil {α : Type} (p : α → Bool) :
    ∀ (l : List α), (∀ a ∈ l, p a = true) → l.dropWhile p = [] := by
  intro l
  induction l with
  | nil => intro _; rfl
  | cons a t ih =>
    intro h
    rw [List.dropWhile_cons, h a (List.mem_cons_self a t), if_pos rfl]
    exact ih (fun b hb => h b (List.mem_cons_of_mem a hb))

theorem any_false {α : Type} (p : α → Bool) :
    ∀ (l : List α), (∀ a ∈ l, p a = false) → l.any p = false := by
  intro l
  induction l with
  | nil => intro _; rfl
  | cons a t ih =>
    intro h
    rw [List.any_cons, h a (List.mem_cons_self a t),
      ih (fun b hb => h b (List.mem_cons_of_mem a hb))]
    rfl

theorem getLast_append_right {α : Type} (l1 l2 : List α) (h : l2 ≠ []) :
    (l1 ++ l2).getLast? = l2.getLast? := by
  rw [← List.head?_reverse, ← List.head?_reverse, List.reverse_append]
  cases hr : l2.reverse with
  | nil => exact absurd (List.reverse_eq_nil_iff.mp hr) h
  | cons c t => rfl

theorem dropTrailingWs_eq_self (l : List Char)
    (h : ∀ c, l.getLast? = some c → pyIsSpace c = false) :
    dropTrailingWs l = l := by
  unfold dropTrailingWs
  cases hrev : l.reverse with
  | nil => rw [List.dropWhile_nil, ← hrev, List.reverse_reverse]
  | cons c t =>
    have hc : l.getLast? = some c := by
      rw [← List.head?_reverse, hrev]
      rfl
    rw [List.dropWhile_cons, h c hc, if_neg (by simp), ← hrev,
      List.reverse_reverse]

theorem pyStripChars_eq_self (l : List Char)
    (hhead : ∀ c, l.head? = some c → pyIsSpace c = false)
    (hlast : ∀ c, l.getLast? = some c → pyIsSpace c = false) :
    pyStripChars l = l := by
  unfold pyStripChars
  rw [dropWhile_head_false _ _ hhead, dropTrailingWs_eq_self l hlast]

theorem splitSemi_no_semi :
    ∀ (l : List Char), (∀ c ∈ l, c ≠ ';') → splitSemi l = none := by
  intro l
  induction l with
  | nil => intro _; rfl
  | cons c t ih =>
    intro h
    unfold splitSemi
    rw [if_neg (h c (List.mem_cons_self c t)),
      ih (fun b hb => h b (List.mem_cons_of_mem c hb))]

theorem splitSemi_append :
    ∀ (l1 : List Char) (r : List Char), (∀ c ∈ l1, c ≠ ';') →
      splitSemi (l1 ++ ';' :: r) = some (l1, r) := by
  intro l1
  induction l1 with
  | nil => intro r _; rw [List.nil_append]; unfold splitSemi; rw [if_pos rfl]
  | cons c t ih =>
    intro r h
    rw [List.cons_append]
    unfold splitSemi
    rw [if_neg (h c (List.mem_cons_self c t)),
      ih r (fun b hb => h b (List.mem_cons_of_mem c hb))]

theorem startsWithChars_cross_false :
    ∀ (n w rest : List Char), (∀ c ∈ n, isNameChar c = true) →
    (∃ c, c ∈ w ∧ isNameChar c = false) → (∀ c ∈ w, c ≠ '[' ∧ c ≠ '=') →
    (∀ c, rest.head? = some c → c = '[' ∨ c = '=') →
    startsWithChars w (n ++ rest) = false := by
  intro n
  induction n with
  | nil =>
    intro w rest _ hw hb hr
    obtain ⟨c0, hc0w, _⟩ := hw
    cases w with
    | nil => exact absurd hc0w (List.not_mem_nil c0)
    | cons c w' =>
      rw [List.nil_append]
      cases rest with
      | nil => rfl
      | cons b r =>
        have hcb : c ≠ b := by
          rcases hr b rfl with rfl | rfl
          · exact (hb c (List.mem_cons_self c w')).1
          · exact (hb c (List.mem_cons_self c w')).2
        simp [startsWithChars, hcb]
  | cons a n' ih =>
    intro w rest hn hw hb hr
    cases w with
    | nil =>
      obtain ⟨c0, hc0w, _⟩ := hw
      exact absurd hc0w (List.not_mem_nil c0)
    | cons c w' =>
      rw [List.cons_append]
      by_cases hca : c = a
      · subst hca
        have hrec : startsWithChars w' (n' ++ rest) = false := by
          apply ih w' rest
          · exact fun b hbn => hn b (List.mem_cons_of_mem c hbn)
          · obtain ⟨c0, hc0w, hc0⟩ := hw
            rcases List.mem_cons.mp hc0w with rfl | h'
            · exact absurd (hn c0 (List.mem_cons_self c0 n')) (by rw [hc0]; exact Bool.noConfusion)
            · exact ⟨c0, h', hc0⟩
          · exact fun b hbw => hb b (List.mem_cons_of_mem c hbw)
          · exact hr
        simp [startsWithChars, hrec]
      · simp [startsWithChars, hca]

theorem isAlnumA_isNameChar {c : Char} (h : isAlnumA c = true) :
    isNameChar c = true := by
  unfold isNameChar
  rw [h]
  rfl

theorem matchExtras_not_bracket (c : Char) (x : List Char) (h : c ≠ '[') :
    matchExtras (c :: x) = (none, c :: x) := by
  unfold matchExtras
  split
  · rename_i rest heq
    injection heq with h1 h2
    exact absurd h1 h
  · rfl

theorem matchExtras_bracket_eq (rest : List Char) :
    matchExtras ('[' :: rest) =
      (match rest.dropWhile (fun c => c ≠ ']') with
       | ']' :: rest3 =>
         if (rest.takeWhile (fun c => c ≠ ']')).isEmpty then
           (none, '[' :: rest)
         else (some ('[' :: ((rest.takeWhile (fun c => c ≠ ']')) ++ [']'])), rest3)
       | _ => (none, '[' :: rest)) := rfl

theorem matchExtras_bracket (e tail2 : List Char) (hne : e ≠ [])
    (hnb : ∀ c ∈ e, c ≠ ']') :
    matchExtras ('[' :: (e ++ ']' :: tail2)) =
      (some ('[' :: (e ++ [']'])), tail2) := by
  rw [matchExtras_bracket_eq]
  rw [takeWhile_append_all _ e (']' :: tail2)
      (fun a ha => decide_eq_true (hnb a ha)),
    takeWhile_head_false _ (']' :: tail2)
      (fun c hc => by injection hc with h1; subst h1; decide),
    List.append_nil,
    dropWhile_append_all _ e (']' :: tail2)
      (fun a ha => decide_eq_true (hnb a ha)),
    dropWhile_head_false _ (']' :: tail2)
      (fun c hc => by injection hc with h1; subst h1; decide)]
  cases e with
  | nil => exact absurd rfl hne
  | cons c t => rfl

theorem reqMatch_eq_core (c : Char) (rest l0 : List Char)
    (h : l0.dropWhile pyIsSpace = c :: rest) :
    reqMatch l0 = reqMatchCore c rest := by
  unfold reqMatch
  dsimp only
  rw [h]
  rfl

theorem mem_of_getLastEq {α : Type} (l : List α) (c : α)
    (h : l.getLast? = some c) : c ∈ l := by
  rw [← List.head?_reverse] at h
  cases hrev : l.reverse with
  | nil => rw [hrev] at h; exact Option.noConfusion h
  | cons a t =>
    rw [hrev] at h
    injection h with h1
    have hm : c ∈ l.reverse := by
      rw [hrev, ← h1]
      exact List.mem_cons_self a t
    exact List.mem_reverse.mp hm

theorem getLast_cons_of_ne_nil {α : Type} (a : α) (l : List α) (h : l ≠ []) :
    (a :: l).getLast? = l.getLast? := by
  have h2 : a :: l = [a] ++ l := rfl
  rw [h2, getLast_append_right [a] l h]

theorem reqMatchCore_spec (nc : Char) (ntail : List Char)
    (ex : Option (List Char)) (v : List Char)
    (hnc : isAlnumA nc = true) (hnt : ∀ c ∈ ntail, isNameChar c = true)
    (hex : ∀ e, ex = some e → e ≠ [] ∧ ∀ c ∈ e, c ≠ ']')
    (hv : v ≠ []) (hvc : ∀ c ∈ v, isVerChar c = true) :
    reqMatchCore nc (ntail ++ (extrasStr ex ++ ('=' :: '=' :: v))) =
      some ⟨nc :: ntail, extrasGroup ex, some ['=', '='], some v⟩ := by
  have hvh : ∀ c, v.head? = some c → pyIsSpace c = false := by
    intro c hc
    cases v with
    | nil => exact Option.noConfusion hc
    | cons a t =>
      injection hc with h1
      subst h1
      exact (isVerChar_props (hvc _ (List.mem_cons_self a t))).2
  cases ex with
  | none =>
    dsimp only [extrasStr, extrasGroup, Option.getD, List.nil_append]
    unfold reqMatchCore
    rw [if_pos hnc]
    dsimp only
    rw [takeWhile_append_all isNameChar ntail ('=' :: '=' :: v) hnt,
      takeWhile_head_false isNameChar ('=' :: '=' :: v)
        (fun c hc => by injection hc with h1; subst h1; decide),
      List.append_nil,
      dropWhile_append_all isNameChar ntail ('=' :: '=' :: v) hnt,
      dropWhile_head_false isNameChar ('=' :: '=' :: v)
        (fun c hc => by injection hc with h1; subst h1; decide),
      matchExtras_not_bracket '=' ('=' :: v) (by decide)]
    dsimp only
    rw [dropWhile_head_false pyIsSpace ('=' :: '=' :: v)
        (fun c hc => by injection hc with h1; subst h1; decide)]
    have hop : opMatch opList ('=' :: '=' :: v) = some (['=', '='], v) := rfl
    rw [hop]
    dsimp only
    rw [dropWhile_head_false pyIsSpace v hvh,
      takeWhile_all isVerChar v (fun c hc => hvc c hc)]
    cases v with
    | nil => exact absurd rfl hv
    | cons vc vt =>
      rw [if_neg (show ¬((vc :: vt : List Char).isEmpty = true) by simp)]
      dsimp only
      rw [dropWhile_all_nil isVerChar (vc :: vt) (fun c hc => hvc c hc)]
      rfl
  | some e =>
    obtain ⟨hne, hnb⟩ := hex e rfl
    have harg : extrasStr (some e) ++ ('=' :: '=' :: v) =
        '[' :: (e ++ ']' :: ('=' :: '=' :: v)) := by
      dsimp only [extrasStr, extrasGroup, Option.getD]
      rw [List.cons_append, List.append_assoc, List.singleton_append]
    rw [harg]
    dsimp only [extrasGroup]
    unfold reqMatchCore
    rw [if_pos hnc]
    dsimp only
    rw [takeWhile_append_all isNameChar ntail ('[' :: (e ++ ']' :: ('=' :: '=' :: v))) hnt,
      takeWhile_head_false isNameChar ('[' :: (e ++ ']' :: ('=' :: '=' :: v)))
        (fun c hc => by injection hc with h1; subst h1; decide),
      List.append_nil,
      dropWhile_append_all isNameChar ntail ('[' :: (e ++ ']' :: ('=' :: '=' :: v))) hnt,
      dropWhile_head_false isNameChar ('[' :: (e ++ ']' :: ('=' :: '=' :: v)))
        (fun c hc => by injection hc with h1; subst h1; decide),
      matchExtras_bracket e ('=' :: '=' :: v) hne hnb]
    dsimp only
    rw [dropWhile_head_false pyIsSpace ('=' :: '=' :: v)
        (fun c hc => by injection hc with h1; subst h1; decide)]
    have hop : opMatch opList ('=' :: '=' :: v) = some (['=', '='], v) := rfl
    rw [hop]
    dsimp only
    rw [dropWhile_head_false pyIsSpace v hvh,
      takeWhile_all isVerChar v (fun c hc => hvc c hc)]
    cases v with
    | nil => exact absurd rfl hv
    | cons vc vt =>
      rw [if_neg (show ¬((vc :: vt : List Char).isEmpty = true) by simp)]
      dsimp only
      rw [dropWhile_all_nil isVerChar (vc :: vt) (fun c hc => hvc c hc)]
      rfl

theorem parse_req_recovery (n : List Char) (ex : Option (List Char))
    (v : List Char) (mk : Option (List Char))
    (hn : validName n = true)
    (hex : ∀ e, ex = some e → e ≠ [] ∧ ∀ c ∈ e, c ≠ ']' ∧ c ≠ ';' ∧ c ≠ '@')
    (hv : v ≠ []) (hvc : ∀ c ∈ v, isVerChar c = true ∧ c ≠ '@')
    (hmk : ∀ m, mk = some m → m ≠ [] ∧ pyIsSpace (m.headD 'x') = false ∧
      pyIsSpace (m.getLastD 'x') = false ∧ ∀ c ∈ m, c ≠ '@') :
    parse_req (specString n ex v mk) =
      some (String.mk n, String.mk (extrasStr ex), some (String.mk v),
        mk.map String.mk) := by
  cases n with
  | nil => exact absurd hn (by decide)
  | cons nc ntail =>
  simp only [validName, Bool.and_eq_true, List.all_eq_true] at hn
  obtain ⟨hnc, hnt⟩ := hn
  have hname_mem : ∀ c ∈ (nc :: ntail : List Char), isNameChar c = true := by
    intro c hc
    rcases List.mem_cons.mp hc with rfl | h2
    · exact isAlnumA_isNameChar hnc
    · exact hnt c h2
  have hv_last : ∀ c, v.getLast? = some c → pyIsSpace c = false :=
    fun c hc => (isVerChar_props (hvc c (mem_of_getLastEq v c hc)).1).2
  have hE_mem : ∀ c ∈ extrasStr ex, c ≠ '@' ∧ c ≠ ';' := by
    intro c hc
    cases ex with
    | none =>
      dsimp only [extrasStr, extrasGroup, Option.getD] at hc
      exact absurd hc (List.not_mem_nil c)
    | some e =>
      dsimp only [extrasStr, extrasGroup, Option.getD] at hc
      rcases List.mem_cons.mp hc with rfl | h2
      · exact ⟨by decide, by decide⟩
      · rcases List.mem_append.mp h2 with h3 | h3
        · have h4 := (hex e rfl).2 c h3
          exact ⟨h4.2.2, h4.2.1⟩
        · obtain rfl := List.mem_singleton.mp h3
          exact ⟨by decide, by decide⟩
  have hmid_head : ∀ (w : List Char) c,
      (extrasStr ex ++ ('=' :: '=' :: w)).head? = some c →
      c = '[' ∨ c = '=' := by
    intro w c hc
    cases ex with
    | none =>
      dsimp only [extrasStr, extrasGroup, Option.getD] at hc
      rw [List.nil_append] at hc
      injection hc with h1
      exact Or.inr h1.symm
    | some e =>
      dsimp only [extrasStr, extrasGroup, Option.getD] at hc
      rw [List.cons_append] at hc
      injection hc with h1
      exact Or.inl h1.symm
  have hmid_mem : ∀ c ∈ extrasStr ex ++ ('=' :: '=' :: v), c ≠ '@' ∧ c ≠ ';' := by
    intro c hc
    rcases List.mem_append.mp hc with h | h
    · exact hE_mem c h
    · rcases List.mem_cons.mp h with rfl | h2
      · exact ⟨by decide, by decide⟩
      · rcases List.mem_cons.mp h2 with rfl | h3
        · exact ⟨by decide, by decide⟩
        · exact ⟨(hvc c h3).2, (isVerChar_props (hvc c h3).1).1⟩
  have hhead0 : ∀ (X : List Char) c,
      ((nc :: ntail) ++ X).head? = some c → pyIsSpace c = false := by
    intro X c hc
    rw [List.cons_append] at hc
    injection hc with h1
    exact h1 ▸ isAlnumA_not_ws hnc
  have hne2 : (extrasStr ex ++ ('=' :: '=' :: v) : List Char) ≠ [] := by
    intro h0
    exact absurd (List.append_eq_nil.mp h0).2 (by simp)
  have hlast0 : ∀ c,
      ((nc :: ntail) ++ (extrasStr ex ++ ('=' :: '=' :: v))).getLast? = some c →
      pyIsSpace c = false := by
    intro c hc
    rw [getLast_append_right _ _ hne2,
      getLast_append_right _ _ (by simp : ('=' :: '=' :: v : List Char) ≠ []),
      getLast_cons_of_ne_nil _ _ (by simp : ('=' :: v : List Char) ≠ []),
      getLast_cons_of_ne_nil _ _ hv] at hc
    exact hv_last c hc
  have hstrip0 : pyStripChars
      ((nc :: ntail) ++ (extrasStr ex ++ ('=' :: '=' :: v))) =
      (nc :: ntail) ++ (extrasStr ex ++ ('=' :: '=' :: v)) :=
    pyStripChars_eq_self _ (hhead0 _) hlast0
  have hemp : ∀ (Y : List Char), ((nc :: ntail) ++ Y).isEmpty = false := by
    intro Y
    rw [List.cons_append]
    rfl
  have hhash : ∀ (Y : List Char),
      startsWithChars ['#'] ((nc :: ntail) ++ Y) = false := by
    intro Y
    rw [List.cons_append]
    have hn9 : ('#' : Char) ≠ nc := fun he => absurd hnc (by rw [← he]; decide)
    simp [startsWithChars, hn9]
  have hskipfalse : ∀ (Y : List Char), (∀ c ∈ Y, c ≠ '@') →
      (∀ c, Y.head? = some c → c = '[' ∨ c = '=') →
      reqSkip ((nc :: ntail) ++ Y) = false := by
    intro Y hYat hYhead
    unfold reqSkip
    have hat : ((nc :: ntail) ++ Y).any (fun c => c = '@') = false := by
      apply any_false
      intro a ha
      rcases List.mem_append.mp ha with h | h
      · exact decide_eq_false (ne_of_true_false (hname_mem a h) (by decide))
      · exact decide_eq_false (hYat a h)
    have hw1 := startsWithChars_cross_false (nc :: ntail) ['f','i','l','e',':']
      Y hname_mem ⟨':', by decide, by decide⟩ (by decide) hYhead
    have hw2 := startsWithChars_cross_false (nc :: ntail) ['p','a','t','h',':']
      Y hname_mem ⟨':', by decide, by decide⟩ (by decide) hYhead
    have hw3 := startsWithChars_cross_false (nc :: ntail) ['g','i','t','+']
      Y hname_mem ⟨'+', by decide, by decide⟩ (by decide) hYhead
    have hw4 := startsWithChars_cross_false (nc :: ntail) ['h','g','+']
      Y hname_mem ⟨'+', by decide, by decide⟩ (by decide) hYhead
    have hw5 := startsWithChars_cross_false (nc :: ntail) ['s','v','n','+']
      Y hname_mem ⟨'+', by decide, by decide⟩ (by decide) hYhead
    rw [hat, hw1, hw2, hw3, hw4, hw5]
    rfl
  have hnosemi : ∀ c ∈ (nc :: ntail) ++ (extrasStr ex ++ ('=' :: '=' :: v)),
      c ≠ ';' := by
    intro c hc
    rcases List.mem_append.mp hc with h | h
    · exact ne_of_true_false (hname_mem c h) (by decide)
    · exact (hmid_mem c h).2
  have hdwL : ((nc :: ntail) ++ (extrasStr ex ++ ('=' :: '=' :: v))).dropWhile
      pyIsSpace = nc :: (ntail ++ (extrasStr ex ++ ('=' :: '=' :: v))) := by
    rw [List.cons_append]
    exact dropWhile_head_false _ _ (fun c hc => by
      injection hc with h1
      exact h1 ▸ isAlnumA_not_ws hnc)
  have hcore := reqMatchCore_spec nc ntail ex v hnc hnt
    (fun e he => ⟨(hex e he).1, fun c hc => ((hex e he).2 c hc).1⟩) hv
    (fun c hc => (hvc c hc).1)
  cases mk with
  | none =>
    unfold parse_req specString
    dsimp only
    rw [show markerStr none = ([] : List Char) from rfl, List.append_nil]
    rw [hstrip0]
    rw [hemp _, if_neg (by simp)]
    rw [hhash _, if_neg (by simp)]
    rw [hskipfalse _ (fun c hc => (hmid_mem c hc).1) (hmid_head v),
      if_neg (by simp)]
    rw [splitSemi_no_semi _ hnosemi]
    dsimp only
    rw [hstrip0]
    rw [reqMatch_eq_core nc (ntail ++ (extrasStr ex ++ ('=' :: '=' :: v))) _ hdwL]
    rw [hcore]
    dsimp only
    rw [if_pos rfl]
    rfl
  | some m =>
    obtain ⟨hm_ne, hm_head, hm_last, hm_at⟩ := hmk m rfl
    cases m with
    | nil => exact absurd rfl hm_ne
    | cons mh mt =>
    rw [List.headD_cons] at hm_head
    have hm_last2 : ∀ c, (mh :: mt).getLast? = some c → pyIsSpace c = false := by
      intro c hc
      rw [List.getLastD_eq_getLast?, hc] at hm_last
      exact hm_last
    have hL : (nc :: ntail) ++ (extrasStr ex ++
        ('=' :: '=' :: (v ++ ';' :: (' ' :: (mh :: mt))))) =
        ((nc :: ntail) ++ (extrasStr ex ++ ('=' :: '=' :: v))) ++
          ';' :: (' ' :: (mh :: mt)) := by
      simp [List.append_assoc]
    have hstripL : pyStripChars ((nc :: ntail) ++ (extrasStr ex ++
        ('=' :: '=' :: (v ++ ';' :: (' ' :: (mh :: mt)))))) =
        (nc :: ntail) ++ (extrasStr ex ++
          ('=' :: '=' :: (v ++ ';' :: (' ' :: (mh :: mt))))) := by
      apply pyStripChars_eq_self
      · exact hhead0 _
      · intro c hc
        rw [hL, getLast_append_right _ _ (by simp),
          getLast_cons_of_ne_nil _ _ (by simp),
          getLast_cons_of_ne_nil _ _ (by simp)] at hc
        exact hm_last2 c hc
    have hsplit : splitSemi ((nc :: ntail) ++ (extrasStr ex ++
        ('=' :: '=' :: (v ++ ';' :: (' ' :: (mh :: mt)))))) =
        some ((nc :: ntail) ++ (extrasStr ex ++ ('=' :: '=' :: v)),
          ' ' :: (mh :: mt)) := by
      rw [hL]
      exact splitSemi_append _ _ hnosemi
    have hYat : ∀ c ∈ extrasStr ex ++
        ('=' :: '=' :: (v ++ ';' :: (' ' :: (mh :: mt)))), c ≠ '@' := by
      intro c hc
      rcases List.mem_append.mp hc with h | h
      · exact (hE_mem c h).1
      · rcases List.mem_cons.mp h with rfl | h2
        · exact by decide
        · rcases List.mem_cons.mp h2 with rfl | h3
          · exact by decide
          · rcases List.mem_append.mp h3 with h4 | h4
            · exact (hvc c h4).2
            · rcases List.mem_cons.mp h4 with rfl | h5
              · exact by decide
              · rcases List.mem_cons.mp h5 with rfl | h6
                · exact by decide
                · exact hm_at c h6
    have hstripm : pyStripChars (' ' :: (mh :: mt)) = mh :: mt := by
      unfold pyStripChars
      rw [List.dropWhile_cons, if_pos (by decide)]
      rw [dropWhile_head_false pyIsSpace (mh :: mt)
        (fun c hc => by injection hc with h1; exact h1 ▸ hm_head)]
      exact dropTrailingWs_eq_self _ hm_last2
    unfold parse_req specString
    dsimp only
    rw [show markerStr (some (mh :: mt)) = ';' :: (' ' :: (mh :: mt)) from rfl]
    rw [hstripL]
    rw [hemp _, if_neg (by simp)]
    rw [hhash _, if_neg (by simp)]
    rw [hskipfalse _ hYat (hmid_head (v ++ ';' :: (' ' :: (mh :: mt)))),
      if_neg (by simp)]
    rw [hsplit]
    dsimp only
    simp only [Option.map_some']
    rw [hstripm]
    rw [hstrip0]
    rw [reqMatch_eq_core nc (ntail ++ (extrasStr ex ++ ('=' :: '=' :: v))) _ hdwL]
    rw [hcore]
    dsimp only
    rw [if_pos rfl]
    rfl

theorem parse_req_skip (req : String)
    (h1 : (pyStripChars req.data).isEmpty = false)
    (h2 : startsWithChars ['#'] (pyStripChars req.data) = false)
    (h3 : reqSkip (pyStripChars req.data) = true) :
    parse_req req = some skipSentinel := by
  unfold parse_req
  dsimp only
  rw [h1, if_neg (by simp), h2, if_neg (by simp), h3, if_pos rfl]

theorem parse_req_null (req : String)
    (h : (pyStripChars req.data).isEmpty = true ∨
      startsWithChars ['#'] (pyStripChars req.data) = true) :
    parse_req req = none := by
  unfold parse_req
  dsimp only
  rcases h with h | h
  · rw [h, if_pos rfl]
  · by_cases he : (pyStripChars req.data).isEmpty = true
    · rw [he, if_pos rfl]
    · rw [if_neg he, h, if_pos rfl]

theorem parse_req_pin_only_eq (req : String) (n e v : String)
    (mkr : Option String)
    (h : parse_req req = some (n, e, some v, mkr)) (hn : n ≠ "SKIP") :
    ∃ mr, reqMatch (pyStripChars (leftOf (pyStripChars req.data))) = some mr ∧
      mr.op = some ['=', '='] ∧ mr.ver = some v.data := by
  unfold parse_req at h
  dsimp only at h
  split at h
  · exact Option.noConfusion h
  split at h
  · exact Option.noConfusion h
  split at h
  · simp [skipSentinel] at h
  split at h
  · exact Option.noConfusion h
  · rename_i mr heq
    injection h with h4
    simp only [Prod.mk.injEq] at h4
    obtain ⟨hn4, he4, hv4, hm4⟩ := h4
    have hop : mr.op = some ['=', '='] := by
      by_contra hop
      rw [if_neg hop] at hv4
      exact Option.noConfusion hv4
    rw [if_pos hop] at hv4
    rcases Option.map_eq_some'.mp hv4 with ⟨w, hw1, hw2⟩
    refine ⟨mr, ?_, hop, ?_⟩
    · have hl : leftOf (pyStripChars req.data) =
          (match splitSemi (pyStripChars req.data) with
            | some (l, r) => (l, some r)
            | none => (pyStripChars req.data, none)).1 := by
        unfold leftOf
        cases hsp : splitSemi (pyStripChars req.data) with
        | none => rfl
        | some p => cases p with | mk a b => rfl
      rw [hl]
      exact heq
    · rw [hw1, ← hw2]

/-- C6: the Requirement Parser (a) recovers `(name, extras, version, marker)`
exactly from every valid `name[extras]==version; marker` specifier (extras
and marker optional), (b) returns the SKIP sentinel for every non-blank,
non-comment specifier containing `@` or starting with a VCS/URL/path scheme,
(c) returns null for every blank or `#`-prefixed string, and (d) whenever a
parse yields a pinned version, the matched operator was `==` and the pin is
the matched version token verbatim. -/
theorem parse_req_spec :
    (∀ (n : List Char) (ex : Option (List Char)) (v : List Char)
        (mk : Option (List Char)),
      validName n = true →
      (∀ e, ex = some e → e ≠ [] ∧ ∀ c ∈ e, c ≠ ']' ∧ c ≠ ';' ∧ c ≠ '@') →
      v ≠ [] → (∀ c ∈ v, isVerChar c = true ∧ c ≠ '@') →
      (∀ m, mk = some m → m ≠ [] ∧ pyIsSpace (m.headD 'x') = false ∧
        pyIsSpace (m.getLastD 'x') = false ∧ ∀ c ∈ m, c ≠ '@') →
      parse_req (specString n ex v mk) =
        some (String.mk n, String.mk (extrasStr ex), some (String.mk v),
          mk.map String.mk)) ∧
    (∀ req : String, (pyStripChars req.data).isEmpty = false →
      startsWithChars ['#'] (pyStripChars req.data) = false →
      reqSkip (pyStripChars req.data) = true →
      parse_req req = some skipSentinel) ∧
    (∀ req : String, (pyStripChars req.data).isEmpty = true ∨
      startsWithChars ['#'] (pyStripChars req.data) = true →
      parse_req req = none) ∧
    (∀ (req : String) (n e v : String) (mkr : Option String),
      parse_req req = some (n, e, some v, mkr) → n ≠ "SKIP" →
      ∃ mr, reqMatch (pyStripChars (leftOf (pyStripChars req.data))) =
        some mr ∧ mr.op = some ['=', '='] ∧ mr.ver = some v.data) :=
  ⟨parse_req_recovery, parse_req_skip, parse_req_null, parse_req_pin_only_eq⟩

/-- The requirement-parser theorem applied to concrete specifiers. -/
theorem parse_req_spec_witness :
    parse_req (specString "fastapi".data (some "standard".data)
        "0.95.2".data (some "python_version < 3".data)) =
      some (String.mk "fastapi".data,
        String.mk (extrasStr (some "standard".data)),
        some (String.mk "0.95.2".data),
        (some "python_version < 3".data).map String.mk) ∧
    parse_req "git+https://example.com/repo" = some skipSentinel ∧
    parse_req "  # comment" = none ∧
    (∃ mr, reqMatch (pyStripChars (leftOf (pyStripChars "fastapi==1.0".data))) =
      some mr ∧ mr.op = some ['=', '='] ∧ mr.ver = some "1.0".data) :=
  ⟨parse_req_spec.1 "fastapi".data (some "standard".data) "0.95.2".data
      (some "python_version < 3".data) (by decide)
      (fun e he => by injection he with h9; subst h9; exact ⟨by decide, by decide⟩)
      (by decide) (by decide)
      (fun m hm => by
        injection hm with h9
        subst h9
        exact ⟨by decide, by decide, by decide, by decide⟩),
   parse_req_spec.2.1 "git+https://example.com/repo" (by decide) (by decide)
     (by decide),
   parse_req_spec.2.2.1 "  # comment" (Or.inr (by decide)),
   parse_req_spec.2.2.2 "fastapi==1.0" "fastapi" "" "1.0" none (by decide)
     (by decide)⟩

/-- The aligning-phase theorem applied to the concrete flake8 scenario. -/
theorem align_workspace_members_spec_witness :
    (∀ c ∈ c5Resolution.conflicts,
      (c5Resolution.target_versions.lookup c.package_name).isSome = true) ∧
    (∃ ok trace lg,
      align_workspace_members c5Fs c5Runner c5Resolution true [] false =
        some (ok, trace, lg) ∧
      ((trace.map Prod.fst).filterMap stagingMemberOf).Pairwise
        (fun a b => pyStrLe a b = true) ∧
      (∀ e ∈ trace,
        (∃ m rest, stagingMemberOf e.1 = some m ∧
          m ∈ pySortedSet c5Resolution.affected_members ∧
          e.1 = "uv" :: "add" :: "--project" :: m :: "--frozen" :: rest) ∨
        e.1 = ["uv", "lock"] ∨ e.1 = ["uv", "sync"]) ∧
      (∀ e ∈ trace.dropLast, e.2.returncode = 0) ∧
      (ok = true ↔ ∀ e ∈ trace, e.2.returncode = 0) ∧
      (∀ e ∈ trace, ∀ m, stagingMemberOf e.1 = some m → e.2.returncode ≠ 0 →
        ∃ kind,
          ("Failed to stage " ++ kind ++ " deps for member '" ++ m ++ "'") ∈ lg)) :=
  ⟨by decide,
   align_workspace_members_spec c5Fs c5Runner c5Resolution true [] false
     (by decide)⟩

end Uvrepin
